import Mathlib

/-!
Verification of `pufferlib/emulation.py` against its specification.

This file shallowly embeds the schema-to-flat-buffer codec and the two
adapter classes (`GymnasiumPufferEnv`, `PettingZooPufferEnv`) of
`src/pufferlib/emulation.py`.  Nested observation/action schemas
(gymnasium `Box` / `Discrete` / `MultiDiscrete` / `Tuple` / `Dict` spaces)
become the inductive `Space`; nested sample values become `Sample`; numpy
structured dtypes with `align=True` become the byte-layout functions
`Space.alignment` / `Space.itemsize`; packed buffers become functions from
byte offset to byte value.  Python exceptions become the `Err` sum type
carried in `Except`: a function returning `.error e` models the Python
code raising the corresponding exception at that point (the raising call
leaves no successor state, mirroring that an exception aborts the method
before any subsequent attribute mutation).

Scalar values are modelled as `Int` stored little-endian two's-complement,
exactly as numpy stores the integer dtypes appearing in these spaces.
-/

/-- Python exception kinds raised (or, per the spec, required) by the code
under verification.  `apiUsageError` models `pufferlib.exceptions.APIUsageError`,
`invalidAgentError` models `pufferlib.exceptions.InvalidAgentError`, and
`unsupportedSchemaError` is the spec's required construction failure; the
remaining constructors model built-in Python exceptions. -/

inductive Err where
  | apiUsageError
  | invalidAgentError
  | unsupportedSchemaError
  | attributeError
  | valueError
  | indexError
  | keyError
  | stopIteration
  deriving DecidableEq, Repr

instance {ε α : Type} [DecidableEq ε] [DecidableEq α] : DecidableEq (Except ε α) :=
  fun a b =>
    match a, b with
    | .ok x, .ok y =>
        match decEq x y with
        | .isTrue h => .isTrue (by rw [h])
        | .isFalse h => .isFalse (by intro hc; cases hc; exact h rfl)
    | .error x, .error y =>
        match decEq x y with
        | .isTrue h => .isTrue (by rw [h])
        | .isFalse h => .isFalse (by intro hc; cases hc; exact h rfl)
    | .ok _, .error _ => .isFalse (by intro hc; cases hc)
    | .error _, .ok _ => .isFalse (by intro hc; cases hc)

/-! ## Scalar dtypes

The numpy scalar dtypes that occur as leaf element types.  `size` is
`np.dtype(...).itemsize`; for these types numpy's alignment equals the
itemsize. -/

inductive Dtype where
  | u8 | i8 | u16 | i16 | u32 | i32 | i64
  deriving DecidableEq, Repr

def Dtype.size : Dtype → Nat
  | .u8 => 1
  | .i8 => 1
  | .u16 => 2
  | .i16 => 2
  | .u32 => 4
  | .i32 => 4
  | .i64 => 8

def Dtype.signed : Dtype → Bool
  | .u8 => false
  | .i8 => true
  | .u16 => false
  | .i16 => true
  | .u32 => false
  | .i32 => true
  | .i64 => true

/-- Modelled from the spec: `pufferlib.utils._get_dtype_bounds` is not under
`src/`; §4.2 says the flat view's numeric bounds are "that type's natural
min/max" (and `[0, 255]` for the one-byte fallback type).  This returns the
natural (min, max) of each integer dtype. -/

def _get_dtype_bounds (dt : Dtype) : Int × Int :=
  if dt.signed then (-(2 ^ (8 * dt.size - 1) : Int), (2 ^ (8 * dt.size - 1) : Int) - 1)
  else (0, (2 ^ (8 * dt.size) : Int) - 1)

/-- The representable range of a numpy integer dtype: a value conforms to a
leaf only when it fits the leaf's scalar type. -/

def Dtype.inRange (dt : Dtype) (v : Int) : Bool :=
  decide ((_get_dtype_bounds dt).1 ≤ v) && decide (v ≤ (_get_dtype_bounds dt).2)

/-! ## Little-endian byte encoding of scalars

numpy stores these integer dtypes as little-endian two's-complement bytes
(x86-64); `emulate`/`nativize` move values through raw buffer bytes, so the
codec is modelled at byte granularity. -/

/-- Little-endian base-256 digits of `u`, `k` bytes. -/

def natBytes : Nat → Nat → List Nat
  | _, 0 => []
  | u, k + 1 => (u % 256) :: natBytes (u / 256) k

/-- Read a little-endian base-256 digit list back as a natural number. -/

def bytesToNat : List Nat → Nat
  | [] => 0
  | b :: bs => b + 256 * bytesToNat bs

/-- Store an `Int` as `dt.size` little-endian two's-complement bytes (the
bytes numpy writes when assigning the value into an array of dtype `dt`). -/

def encodeScalar (dt : Dtype) (v : Int) : List Nat :=
  natBytes (v % (2 ^ (8 * dt.size) : Int)).toNat dt.size

/-- Read `dt.size` bytes back as an `Int` (what `.item()` yields for an
element of dtype `dt`). -/

def decodeScalar (dt : Dtype) (bs : List Nat) : Int :=
  let u := bytesToNat bs
  if dt.signed ∧ 2 ^ (8 * dt.size - 1) ≤ u then (u : Int) - 2 ^ (8 * dt.size) else (u : Int)

/-! ## Schemas (`pufferlib.spaces` / gymnasium spaces)

`Space` is the recursive schema description: `box`/`discrete`/`multidiscrete`
are the leaf spaces (gymnasium `Box(low, high, shape, dtype)`,
`Discrete(n)` — dtype int64, shape `()` — and `MultiDiscrete(ns)` — dtype
int64, shape `(len(ns),)`); `tup`/`dict` are `Tuple`/`Dict` container
spaces.  Modelled from the spec where the class definitions are outside
`src/`: §3 fixes Dict child order to declaration order, never re-sorted,
so `SpaceDict` is an ordered key/child sequence. -/

mutual
inductive Space where
  | box (dt : Dtype) (shape : List Nat) (low high : Int)
  | discrete (n : Nat)
  | multidiscrete (ns : List Nat)
  | tup (children : SpaceList)
  | dict (children : SpaceDict)
  deriving DecidableEq, Repr

inductive SpaceList where
  | nil
  | cons (head : Space) (tail : SpaceList)
  deriving DecidableEq, Repr

inductive SpaceDict where
  | nil
  | cons (key : String) (head : Space) (tail : SpaceDict)
  deriving DecidableEq, Repr
end

/-- Number of elements of a fixed shape (product of the dimensions). -/

def prodShape (l : List Nat) : Nat := l.foldl (· * ·) 1

def Space.isBox : Space → Bool
  | .box _ _ _ _ => true
  | _ => false

def Space.isDiscrete : Space → Bool
  | .discrete _ => true
  | _ => false

/-- A leaf space in the spec's sense (§3): any non-`Tuple`/`Dict` node. -/

def Space.isLeaf : Space → Bool
  | .tup _ => false
  | .dict _ => false
  | _ => true

/-- The scalar dtype of a leaf space (`space.dtype` in numpy terms);
`Discrete`/`MultiDiscrete` carry int64.  Containers have no scalar dtype
(`None` in gymnasium); the value returned for them is never used. -/

def Space.dtypeOf : Space → Dtype
  | .box dt _ _ _ => dt
  | _ => .i64

/-- The shape of a leaf space (`space.shape`). -/

def Space.shapeOf : Space → List Nat
  | .box _ shape _ _ => shape
  | .discrete _ => []
  | .multidiscrete ns => [ns.length]
  | .tup _ => []
  | .dict _ => []

/-! ## Packed layout (`dtype_from_space`, `np.dtype(..., align=True)`)

`dtype_from_space` builds a numpy structured dtype whose field tree mirrors
the space: each leaf becomes a `(space.dtype, space.shape)` subarray field,
each `Tuple` becomes fields `f0, f1, ...`, each `Dict` fields by key, and
`np.dtype(dtype, align=True)` lays the fields out at natural alignment:
each field offset is the previous end rounded up to the field's alignment,
the struct's alignment is the max of its fields' alignments (1 when empty),
and the struct's itemsize is the end offset rounded up to the struct
alignment.  `Space.alignment`/`Space.itemsize` compute exactly these
quantities of `np.dtype(dtype_from_space(space), align=True)`. -/

/-- Round `off` up to the next multiple of `a`. -/

def alignUp (off a : Nat) : Nat := ((off + a - 1) / a) * a

mutual
def Space.alignment : Space → Nat
  | .box dt _ _ _ => dt.size
  | .discrete _ => 8
  | .multidiscrete _ => 8
  | .tup cs => cs.alignment
  | .dict cs => cs.alignment

def SpaceList.alignment : SpaceList → Nat
  | .nil => 1
  | .cons c cs => max c.alignment cs.alignment

def SpaceDict.alignment : SpaceDict → Nat
  | .nil => 1
  | .cons _ c cs => max c.alignment cs.alignment
end

mutual
def Space.itemsize : Space → Nat
  | .box dt shape _ _ => dt.size * prodShape shape
  | .discrete _ => 8
  | .multidiscrete ns => 8 * ns.length
  | .tup cs => alignUp (cs.endOff 0) (Space.alignment (.tup cs))
  | .dict cs => alignUp (cs.endOff 0) (Space.alignment (.dict cs))

/-- The running end offset after laying out a field sequence starting from
relative offset `rel`: each field starts at `alignUp rel field.alignment`
and occupies `field.itemsize` bytes. -/
def SpaceList.endOff : SpaceList → Nat → Nat
  | .nil, rel => rel
  | .cons c cs, rel => cs.endOff (alignUp rel c.alignment + c.itemsize)

def SpaceDict.endOff : SpaceDict → Nat → Nat
  | .nil, rel => rel
  | .cons _ c cs, rel => cs.endOff (alignUp rel c.alignment + c.itemsize)
end

/-! ## Samples

A nested value tree isomorphic to a schema.  A leaf holds the sample's own
shape together with its flattened (C-order) scalar values; a Python scalar
(or 0-d array) is `leaf [] [v]`. -/

mutual
inductive Sample where
  | leaf (shape : List Nat) (vals : List Int)
  | tup (children : SampleList)
  | dict (children : SampleDict)
  deriving DecidableEq, Repr

inductive SampleList where
  | nil
  | cons (head : Sample) (tail : SampleList)
  deriving DecidableEq, Repr

inductive SampleDict where
  | nil
  | cons (key : String) (head : Sample) (tail : SampleDict)
  deriving DecidableEq, Repr
end

mutual
/-- Structural/type conformance of a sample to a schema: matching nesting,
matching Dict keys in declaration order, leaf values of the declared shape
and within the declared scalar type's representable range (`Discrete n`
values are int64-stored naturals below `n`). -/
def conforms : Space → Sample → Bool
  | .box dt shape _ _, .leaf sh vals =>
      sh = shape && vals.length = prodShape shape && vals.all (dt.inRange ·)
  | .discrete n, .leaf sh vals =>
      match vals with
      | [v] => sh = ([] : List Nat) && decide (0 ≤ v) && decide (v < (n : Int)) &&
          Dtype.inRange .i64 v
      | _ => false
  | .multidiscrete ns, .leaf sh vals =>
      sh = [ns.length] && vals.length = ns.length && vals.all (Dtype.inRange .i64 ·)
  | .tup cs, .tup vs => conformsList cs vs
  | .dict cs, .dict vs => conformsDict cs vs
  | _, _ => false

def conformsList : SpaceList → SampleList → Bool
  | .nil, .nil => true
  | .cons c cs, .cons v vs => conforms c v && conformsList cs vs
  | _, _ => false

def conformsDict : SpaceDict → SampleDict → Bool
  | .nil, .nil => true
  | .cons k c cs, .cons k' v vs => k = k' && conforms c v && conformsDict cs vs
  | _, _ => false
end

/-! ## Byte buffers

A packed buffer is a total map from byte offset to byte value
(`np.zeros(1, dtype=emulated_dtype)` starts all-zero).  `writeBytes` is a
byte-wise memcpy at an offset; `readBytes` reads a byte range.  The
`.view(...)`/`.ravel()`/`np.array(...)` steps in `emulate`/`nativize` are
zero-copy byte reinterpretations, so they are identities on this
representation. -/

def Buf : Type := Nat → Nat

def zeroBuf : Buf := fun _ => 0

def writeByte (f : Buf) (i v : Nat) : Buf :=
  fun j => if j = i then v else f j

def writeBytes (f : Buf) : Nat → List Nat → Buf
  | _, [] => f
  | off, b :: bs => writeBytes (writeByte f off b) (off + 1) bs

def readBytes (f : Buf) : Nat → Nat → List Nat
  | _, 0 => []
  | off, n + 1 => f off :: readBytes f (off + 1) n

/-! ## Codec: `emulate` / `_emulate` and `nativize` / `_nativize`

`_emulate(arr, sample)` recursively descends dict/tuple samples into the
matching structured-dtype fields and assigns each leaf verbatim
(`arr[()] = sample`), i.e. writes the leaf's values as consecutive scalar
encodings at the field's byte offset.  `_nativize(sample, space)` descends
the space and extracts each leaf with `.item()`: numpy's `.item()` returns
the single scalar when the subarray has exactly one element and raises
`ValueError` otherwise, which the embedding returns as `.error .valueError`.
Field offsets follow the packed layout: each field starts at the running
end rounded up to its alignment. -/

/-- The bytes of a leaf assignment: each flattened value stored
consecutively as `dt.size` little-endian bytes. -/

def encodeLeafBytes (dt : Dtype) : List Int → List Nat
  | [] => []
  | v :: vs => encodeScalar dt v ++ encodeLeafBytes dt vs

mutual
def _emulate (arr : Buf) (off : Nat) : Space → Sample → Buf
  | .box dt _ _ _, .leaf _ vals => writeBytes arr off (encodeLeafBytes dt vals)
  | .discrete _, .leaf _ vals => writeBytes arr off (encodeLeafBytes .i64 vals)
  | .multidiscrete _, .leaf _ vals => writeBytes arr off (encodeLeafBytes .i64 vals)
  | .tup cs, .tup vs => _emulateList arr off 0 cs vs
  | .dict cs, .dict vs => _emulateDict arr off 0 cs vs
  | _, _ => arr

def _emulateList (arr : Buf) (base rel : Nat) : SpaceList → SampleList → Buf
  | .cons c cs, .cons v vs =>
      _emulateList (_emulate arr (base + alignUp rel c.alignment) c v) base
        (alignUp rel c.alignment + c.itemsize) cs vs
  | _, _ => arr

def _emulateDict (arr : Buf) (base rel : Nat) : SpaceDict → SampleDict → Buf
  | .cons _ c cs, .cons _ v vs =>
      _emulateDict (_emulate arr (base + alignUp rel c.alignment) c v) base
        (alignUp rel c.alignment + c.itemsize) cs vs
  | _, _ => arr
end

mutual
def _nativize (arr : Buf) (off : Nat) : Space → Except Err Sample
  | .box dt shape _ _ =>
      if prodShape shape = 1 then
        .ok (.leaf [] [decodeScalar dt (readBytes arr off dt.size)])
      else .error .valueError
  | .discrete _ => .ok (.leaf [] [decodeScalar .i64 (readBytes arr off 8)])
  | .multidiscrete ns =>
      if ns.length = 1 then
        .ok (.leaf [] [decodeScalar .i64 (readBytes arr off 8)])
      else .error .valueError
  | .tup cs => do
      let vs ← _nativizeList arr off 0 cs
      .ok (.tup vs)
  | .dict cs => do
      let vs ← _nativizeDict arr off 0 cs
      .ok (.dict vs)

def _nativizeList (arr : Buf) (base rel : Nat) : SpaceList → Except Err SampleList
  | .nil => .ok .nil
  | .cons c cs => do
      let v ← _nativize arr (base + alignUp rel c.alignment) c
      let vs ← _nativizeList arr base (alignUp rel c.alignment + c.itemsize) cs
      .ok (.cons v vs)

def _nativizeDict (arr : Buf) (base rel : Nat) : SpaceDict → Except Err SampleDict
  | .nil => .ok .nil
  | .cons k c cs => do
      let v ← _nativize arr (base + alignUp rel c.alignment) c
      let vs ← _nativizeDict arr base (alignUp rel c.alignment + c.itemsize) cs
      .ok (.cons k v vs)
end

/-- `emulate(sample, sample_dtype, emulated_dtype)`: write the sample into a
zeroed packed buffer, then expose it through the flat dtype
(`.view(sample_dtype).ravel()` is a zero-copy byte reinterpretation, i.e.
the identity on the byte buffer, so the result is the byte buffer itself). -/

def emulate (space : Space) (sample : Sample) : Buf :=
  _emulate zeroBuf 0 space sample

/-- `nativize(sample, sample_space, emulated_dtype)`: reinterpret the flat
bytes as the packed record dtype (`np.array(sample).view(emulated_dtype)`,
a byte identity) and recursively reconstruct the nested sample. -/

def nativize (arr : Buf) (sample_space : Space) : Except Err Sample :=
  _nativize arr 0 sample_space

mutual
/-- All leaves of the schema are scalar-shaped (shape `()`): the domain on
which `.item()`-based extraction is faithful. -/
def allScalarLeaves : Space → Bool
  | .box _ shape _ _ => shape.isEmpty
  | .discrete _ => true
  | .multidiscrete _ => false
  | .tup cs => allScalarList cs
  | .dict cs => allScalarDict cs

def allScalarList : SpaceList → Bool
  | .nil => true
  | .cons c cs => allScalarLeaves c && allScalarList cs

def allScalarDict : SpaceDict → Bool
  | .nil => true
  | .cons _ c cs => allScalarLeaves c && allScalarDict cs
end

mutual
/-- `flatten_space`: depth-first list of the leaf subspaces. -/
def flatten_space : Space → List Space
  | .tup cs => flattenSubspaces cs
  | .dict cs => flattenSubspacesD cs
  | sp => [sp]

def flattenSubspaces : SpaceList → List Space
  | .nil => []
  | .cons c cs => flatten_space c ++ flattenSubspaces cs

def flattenSubspacesD : SpaceDict → List Space
  | .nil => []
  | .cons _ c cs => flatten_space c ++ flattenSubspacesD cs
end

/-- Element count of a leaf space (`prod(space.shape)`). -/

def Space.numelOf (sp : Space) : Nat := prodShape sp.shapeOf

/-- Total element count over all leaves, in depth-first order. -/

def totalNumel (sp : Space) : Nat := ((flatten_space sp).map Space.numelOf).sum

def totalNumelList (cs : SpaceList) : Nat := ((flattenSubspaces cs).map Space.numelOf).sum

def totalNumelDict (cs : SpaceDict) : Nat := ((flattenSubspacesD cs).map Space.numelOf).sum

/-- The scalar dtypes of the leaves, in depth-first order
(`[e.dtype for e in flatten_space(space)]`). -/

def leafDtypesOf (sp : Space) : List Dtype := (flatten_space sp).map Space.dtypeOf

/-- `emulate_observation_space`: a `Box` space is returned unchanged;
otherwise the flat view is a one-dimensional `Box` whose scalar type is the
common leaf dtype when all leaf dtypes equal the first
(`dtypes.count(dtypes[0]) == len(dtypes)`) and the one-byte fallback
`uint8` otherwise, whose bounds come from `_get_dtype_bounds`, and whose
length is `emulated_dtype.itemsize // dtype.itemsize`.  An empty leaf list
makes `dtypes[0]` raise `IndexError`.  (The Python function also returns
`emulated_dtype = dtype_from_space(space)`; that packed layout is the
`Space.itemsize`/`Space.alignment` view of the input space itself.) -/

def emulate_observation_space (space : Space) : Except Err Space :=
  if space.isBox then .ok space
  else
    let leaves := flatten_space space
    let dtypes := leaves.map Space.dtypeOf
    match dtypes with
    | [] => .error .indexError
    | d0 :: _ =>
      let dtype := if dtypes.count d0 = dtypes.length then d0 else Dtype.u8
      let bounds := _get_dtype_bounds dtype
      let numel := space.itemsize / dtype.size
      .ok (.box dtype [numel] bounds.1 bounds.2)

/-- The `.n` attribute of a leaf space: only `Discrete` has it; reading it
on any other leaf raises `AttributeError`. -/

def Space.n : Space → Except Err Nat
  | .discrete n => .ok n
  | _ => .error .attributeError

/-- `emulate_action_space`: a `Discrete` space is returned unchanged
(with its dtype); otherwise the leaves are flattened depth-first and
`MultiDiscrete([e.n for e in leaves])` is built — reading `.n` on a leaf
that has none (a continuous `Box`, or a `MultiDiscrete` leaf, which has
`.nvec` instead) raises `AttributeError` at that leaf. -/

def emulate_action_space (space : Space) : Except Err Space :=
  if space.isDiscrete then .ok space
  else do
    let ns ← (flatten_space space).mapM Space.n
    .ok (.multidiscrete ns)

/-! ## Space validation (`check_space`)

The data handed to a containment check is either a native nested sample or
a flat array of scalars. -/

inductive Val where
  | sample (s : Sample)
  | flat (elems : List Int)
  deriving DecidableEq, Repr

/-- Scalar values of a tuple of scalar leaves, when it is one. -/

def scalarsOfSampleList : SampleList → Option (List Int)
  | .nil => some []
  | .cons (.leaf [] [v]) vs => (scalarsOfSampleList vs).map (v :: ·)
  | _ => none

/-- Modelled from the spec: `space.contains(data)` is gymnasium behaviour
outside `src/`; §4.6 says the validator "verifies structural/bounds
containment".  A flat array is contained in a `Box` when its length matches
the element count and every element is within bounds; scalars in
`Discrete n` when `0 ≤ v < n`; arrays (or tuples of scalars, which numpy
coerces) in `MultiDiscrete ns` when the lengths match and each component
is below its cardinality; everything else fails containment. -/

def spaceContains : Space → Val → Bool
  | .box _ shape low high, .flat elems =>
      decide (elems.length = prodShape shape) &&
        elems.all (fun v => decide (low ≤ v) && decide (v ≤ high))
  | .box _ shape low high, .sample (.leaf sh vals) =>
      decide (sh = shape) && decide (vals.length = prodShape shape) &&
        vals.all (fun v => decide (low ≤ v) && decide (v ≤ high))
  | .discrete n, .flat elems =>
      match elems with
      | [v] => decide (0 ≤ v) && decide (v < (n : Int))
      | _ => false
  | .discrete n, .sample (.leaf _ vals) =>
      match vals with
      | [v] => decide (0 ≤ v) && decide (v < (n : Int))
      | _ => false
  | .multidiscrete ns, .flat elems =>
      decide (elems.length = ns.length) &&
        (elems.zip ns).all (fun p => decide (0 ≤ p.1) && decide (p.1 < (p.2 : Int)))
  | .multidiscrete ns, .sample (.leaf _ vals) =>
      decide (vals.length = ns.length) &&
        (vals.zip ns).all (fun p => decide (0 ≤ p.1) && decide (p.1 < (p.2 : Int)))
  | .multidiscrete ns, .sample (.tup vs) =>
      match scalarsOfSampleList vs with
      | some elems =>
          decide (elems.length = ns.length) &&
            (elems.zip ns).all (fun p => decide (0 ≤ p.1) && decide (p.1 < (p.2 : Int)))
      | none => false
  | _, _ => false

/-- `check_space(data, space)`: a containment failure — or an exception
raised inside the containment check itself — raises `APIUsageError`;
otherwise the function returns `True`, which the caller stores into its
one-shot flag. -/

def check_space (data : Val) (space : Space) : Except Err Bool :=
  if spaceContains space data then .ok true else .error .apiUsageError

/-- Read `numel` consecutive elements of dtype `dt` from a byte list: the
flat `.view(dtype)` of a packed buffer's bytes. -/

def decodeElems (dt : Dtype) (bs : List Nat) : Nat → List Int
  | 0 => []
  | n + 1 => decodeScalar dt (bs.take dt.size) :: decodeElems dt (bs.drop dt.size) n

/-! ## Single-agent adapter (`GymnasiumPufferEnv`)

The wrapped environment is external (§6): its declared spaces are a
`GymEnv`, and each `reset`/`step` takes the wrapped environment's response
for that call as an oracle argument.  The adapter is modelled in the
`self.mem = None` configuration (no external shared-buffer binding).
`self.initialized` is the state field `inited`. -/

structure GymEnv where
  observation_space : Space
  action_space : Space
  deriving DecidableEq, Repr

structure GymnasiumPufferEnv where
  env : GymEnv
  observation_space : Space
  action_space : Space
  is_obs_emulated : Bool
  is_atn_emulated : Bool
  deriving DecidableEq, Repr

/-- The space-related part of `GymnasiumPufferEnv.__init__`: derive the
emulated observation/action spaces (the packed dtypes `obs_dtype`/`atn_dtype`
are the layout views of the wrapped spaces themselves); `is_obs_emulated` /
`is_atn_emulated` record whether the derivation returned a new space object
(everything except a `Box` observation / `Discrete` action). -/

def GymnasiumPufferEnv.make (env : GymEnv) : Except Err GymnasiumPufferEnv := do
  let obs_space ← emulate_observation_space env.observation_space
  let atn_space ← emulate_action_space env.action_space
  .ok { env := env, observation_space := obs_space, action_space := atn_space,
        is_obs_emulated := !env.observation_space.isBox,
        is_atn_emulated := !env.action_space.isDiscrete }

structure GymState where
  inited : Bool
  done : Bool
  is_observation_checked : Bool
  is_action_checked : Bool
  obs : Val
  deriving DecidableEq, Repr

/-- `self._emulate(ob)` with `mem = None`: in emulated mode the packed
bytes of the observation are exposed through the flat view dtype; in
non-emulated mode `self.obs = ob` stores the native observation. -/

def gymObsVal (ad : GymnasiumPufferEnv) (ob : Sample) : Val :=
  if ad.is_obs_emulated then
    .flat (decodeElems ad.observation_space.dtypeOf
      (readBytes (emulate ad.env.observation_space ob) 0 ad.env.observation_space.itemsize)
      ad.observation_space.numelOf)
  else .sample ob

/-- The freshly constructed adapter: `initialized = False`, `done = True`,
both one-shot check flags clear, `self.obs = np.zeros(...)`. -/

def GymnasiumPufferEnv.initialState (ad : GymnasiumPufferEnv) : GymState :=
  { inited := false, done := true, is_observation_checked := false,
    is_action_checked := false,
    obs := .flat (List.replicate ad.observation_space.numelOf 0) }

structure GymResetOut where
  state : GymState
  obs : Val
  checked : Option (Val × Space)
  deriving DecidableEq, Repr

/-- `GymnasiumPufferEnv.reset`: mark the episode live, store the wrapped
environment's observation (`ob` is what `_seed_and_reset` returned), and
run the one-shot observation containment check when it has not yet
succeeded.  `checked` records the `check_space` invocation (data, space)
when one occurred. -/

def GymnasiumPufferEnv.reset (ad : GymnasiumPufferEnv) (s : GymState) (ob : Sample) :
    Except Err GymResetOut :=
  let newObs := gymObsVal ad ob
  let s1 : GymState := { s with inited := true, done := false, obs := newObs }
  if s1.is_observation_checked then .ok ⟨s1, newObs, none⟩
  else do
    let b ← check_space newObs ad.observation_space
    .ok ⟨{ s1 with is_observation_checked := b }, newObs,
      some (newObs, ad.observation_space)⟩

structure GymStepResult where
  ob : Sample
  reward : Int
  done : Bool
  truncated : Bool
  deriving DecidableEq, Repr

structure GymStepOut where
  state : GymState
  obs : Val
  reward : Int
  done : Bool
  truncated : Bool
  checked : Option (Val × Space)
  deriving DecidableEq, Repr

/-- `nativize(action, space, atn_dtype)` for a flat action array: the
int64 action bytes are viewed as the packed action dtype and recursively
unpacked. -/

def nativizeFlat (space : Space) (action : List Int) : Except Err Sample :=
  _nativize (fun i => (encodeLeafBytes .i64 action).getD i 0) 0 space

/-- `GymnasiumPufferEnv.step`: raises `APIUsageError` before any reset or
after a done episode without an intervening reset; otherwise nativizes the
incoming flat action against the wrapped environment's original action
space, runs the one-shot action containment check against the adapter's
(emulated) `self.action_space`, and steps the wrapped environment (whose
response for this call is the oracle `r`). -/

def GymnasiumPufferEnv.step (ad : GymnasiumPufferEnv) (s : GymState) (action : List Int)
    (r : GymStepResult) : Except Err GymStepOut :=
  if !s.inited then .error .apiUsageError
  else if s.done then .error .apiUsageError
  else do
    let atn ← nativizeFlat ad.env.action_space action
    let (s1, ev) ←
      if s.is_action_checked then pure (s, none)
      else do
        let b ← check_space (.sample atn) ad.action_space
        pure ({ s with is_action_checked := b },
          some ((.sample atn : Val), ad.action_space))
    let newObs := gymObsVal ad r.ob
    .ok { state := { s1 with obs := newObs, done := r.done }, obs := newObs,
          reward := r.reward, done := r.done, truncated := r.truncated, checked := ev }

/-- One adapter call together with the wrapped environment's response. -/

inductive GymOp where
  | reset (ob : Sample)
  | step (action : List Int) (r : GymStepResult)
  deriving DecidableEq, Repr

def GymOp.isStep : GymOp → Bool
  | .step _ _ => true
  | .reset _ => false

def countEv (ev : Option (Val × Space)) : Nat := if ev.isSome then 1 else 0

/-- Drive one adapter instance through a sequence of calls, counting the
observation- and action-containment checks that fire. -/

def gymRun (ad : GymnasiumPufferEnv) : GymState → List GymOp → Except Err (GymState × Nat × Nat)
  | s, [] => .ok (s, 0, 0)
  | s, .reset ob :: ops => do
      let o ← GymnasiumPufferEnv.reset ad s ob
      let (s', no, na) ← gymRun ad o.state ops
      .ok (s', countEv o.checked + no, na)
  | s, .step a r :: ops => do
      let o ← GymnasiumPufferEnv.step ad s a r
      let (s', no, na) ← gymRun ad o.state ops
      .ok (s', no, countEv o.checked + na)

/-! ## Multi-agent adapter (`PettingZooPufferEnv`)

Per-agent dictionaries are ordered association lists.  The adapter is
modelled in the shared-buffer-bound configuration (`self.mem` set, so
`self.obs = self.mem.obs` is one row per possible agent and
`self.dict_obs[agent]` is the view of that agent's row); the wrapped
environment's per-call responses are oracle arguments, and the mirror of
its current `agents` property is kept in the state. -/

structure PZEnv where
  possible_agents : List String
  observation_space : Space
  action_space : Space
  deriving DecidableEq, Repr

structure PettingZooPufferEnv where
  env : PZEnv
  single_observation_space : Space
  single_action_space : Space
  is_obs_emulated : Bool
  is_atn_emulated : Bool
  deriving DecidableEq, Repr

/-- The space-related part of `PettingZooPufferEnv.__init__`: the per-agent
spaces are taken from the first possible agent (raising `IndexError` when
`possible_agents` is empty) and run through the two view derivations. -/

def PettingZooPufferEnv.make (env : PZEnv) : Except Err PettingZooPufferEnv :=
  match env.possible_agents with
  | [] => .error .indexError
  | _ :: _ => do
      let obs_space ← emulate_observation_space env.observation_space
      let atn_space ← emulate_action_space env.action_space
      .ok { env := env, single_observation_space := obs_space,
            single_action_space := atn_space,
            is_obs_emulated := !env.observation_space.isBox,
            is_atn_emulated := !env.action_space.isDiscrete }

def PettingZooPufferEnv.possible_agents (ad : PettingZooPufferEnv) : List String :=
  ad.env.possible_agents

def PettingZooPufferEnv.num_agents (ad : PettingZooPufferEnv) : Nat :=
  ad.possible_agents.length

structure PZState where
  inited : Bool
  all_done : Bool
  is_observation_checked : Bool
  is_action_checked : Bool
  agents : List String
  slots : List (List Nat)
  mask : List (String × Bool)
  memRew : List Int
  memDone : List Bool
  memTrunc : List Bool
  memMask : List Bool
  deriving DecidableEq, Repr

/-- The `done` property: `len(self.agents) == 0 or self.all_done`. -/

def PettingZooPufferEnv.done (s : PZState) : Bool := s.agents.isEmpty || s.all_done

/-- `self.mask[agent] = v` on a dict keyed by the possible agents. -/

def setAssoc (m : List (String × Bool)) (k : String) (v : Bool) : List (String × Bool) :=
  m.map (fun p => if p.1 = k then (p.1, v) else p)

/-- The byte image an observation leaves in an agent's buffer row:
`_emulate(self._obs[i], ob)` writes the packed bytes in emulated mode and
`self.obs[i] = ob` stores the raw element bytes otherwise; over the byte
row both are the packed image of the observation. -/

def slotBytes (ad : PettingZooPufferEnv) (ob : Sample) : List Nat :=
  readBytes (emulate ad.env.observation_space ob) 0 ad.env.observation_space.itemsize

/-- `self.dict_obs[agent]` for the agent at position `i`: the agent's row
of the bound observation buffer viewed as the flat per-agent array. -/

def pzDictObsVal (ad : PettingZooPufferEnv) (s : PZState) (i : Nat) : Val :=
  .flat (decodeElems ad.single_observation_space.dtypeOf (s.slots.getD i [])
    ad.single_observation_space.numelOf)

/-- The freshly constructed adapter: `initialized = False`,
`all_done = True`, both one-shot flags clear, a zeroed observation buffer;
`agents0` is the wrapped environment's initial `agents` property. -/

def PettingZooPufferEnv.initialState (ad : PettingZooPufferEnv) (agents0 : List String) :
    PZState :=
  { inited := false, all_done := true, is_observation_checked := false,
    is_action_checked := false, agents := agents0,
    slots := List.replicate ad.num_agents
      (List.replicate ad.env.observation_space.itemsize 0),
    mask := [],
    memRew := List.replicate ad.num_agents 0,
    memDone := List.replicate ad.num_agents false,
    memTrunc := List.replicate ad.num_agents false,
    memMask := List.replicate ad.num_agents false }

structure PZResetResult where
  obs : List (String × Sample)
  agents : List String
  deriving DecidableEq, Repr

structure PZResetOut where
  state : PZState
  checked : Option (Val × Space)
  deriving DecidableEq, Repr

/-- The per-agent loop of `PettingZooPufferEnv.reset`: for each possible
agent in order, an agent present in the wrapped environment's result has
its observation encoded into its row and its mask set; for an absent agent
the code executes `self.observation[i] = 0`, which raises
`AttributeError` — no attribute `observation` exists on the class (the
matching absent-agent branch in `step` writes `self.obs[i] = 0`). -/

def pzResetLoop (ad : PettingZooPufferEnv) (obs : List (String × Sample)) :
    PZState → Nat → List String → Except Err PZState
  | s, _, [] => .ok s
  | s, i, agent :: rest =>
      match obs.lookup agent with
      | none => .error .attributeError
      | some ob =>
          pzResetLoop ad obs
            { s with slots := s.slots.set i (slotBytes ad ob),
                     mask := setAssoc s.mask agent true } (i + 1) rest

/-- `PettingZooPufferEnv.reset`: mark the episode live, clear `all_done`,
reset the mask to all-false over the possible agents, take the wrapped
environment's reset result (oracle `r`, which also refreshes its `agents`
property), run the per-agent loop, and run the one-shot observation check
on the first possible agent's `dict_obs` entry when not yet done. -/

def PettingZooPufferEnv.reset (ad : PettingZooPufferEnv) (s : PZState) (r : PZResetResult) :
    Except Err PZResetOut := do
  let s1 : PZState :=
    { s with inited := true, all_done := false,
             mask := ad.possible_agents.map (fun a => (a, false)), agents := r.agents }
  let s2 ← pzResetLoop ad r.obs s1 0 ad.possible_agents
  if s2.is_observation_checked then .ok ⟨s2, none⟩
  else do
    let b ← check_space (pzDictObsVal ad s2 0) ad.single_observation_space
    .ok ⟨{ s2 with is_observation_checked := b },
      some (pzDictObsVal ad s2 0, ad.single_observation_space)⟩

structure PZStepResult where
  obs : List (String × Sample)
  rewards : List (String × Int)
  dones : List (String × Bool)
  truncateds : List (String × Bool)
  agents : List String
  deriving DecidableEq, Repr

structure PZStepOut where
  state : PZState
  rewards : List (String × Int)
  dones : List (String × Bool)
  truncateds : List (String × Bool)
  checked : Option (Val × Space)
  deriving DecidableEq, Repr

/-- `pad_agent_data(data, agents, pad_value)`: re-key the mapping over the
full agent list, keeping present values and filling absent agents with the
pad value. -/

def pad_agent_data {α : Type} (data : List (String × α)) (agents : List String)
    (pad_value : α) : List (String × α) :=
  agents.map (fun agent => (agent, (data.lookup agent).getD pad_value))

/-- The action-unpacking loop of `PettingZooPufferEnv.step`: an agent id
outside `possible_agents` raises `InvalidAgentError`; an id not currently
active is skipped; an active agent's action is nativized when the action
schema was emulated and forwarded raw otherwise. -/

def pzUnpackActions (ad : PettingZooPufferEnv) (s : PZState) :
    List (String × List Int) → Except Err (List (String × Val))
  | [] => .ok []
  | (agent, atn) :: rest =>
      if agent ∈ ad.possible_agents then
        if agent ∈ s.agents then do
          let na ←
            if ad.is_atn_emulated then do
              let x ← nativizeFlat ad.env.action_space atn
              (.ok (.sample x) : Except Err Val)
            else .ok (.flat atn)
          let r ← pzUnpackActions ad s rest
          .ok ((agent, na) :: r)
        else pzUnpackActions ad s rest
      else .error .invalidAgentError

/-- `data[agent]` on a per-agent dict: raises `KeyError` when absent. -/

def lookupOrKeyError {α : Type} (m : List (String × α)) (k : String) : Except Err α :=
  match m.lookup k with
  | some x => .ok x
  | none => .error .keyError

/-- The per-agent loop after the wrapped environment steps: a possible
agent absent from the returned observations has its row zeroed
(`self.obs[i] = 0`); a present agent gets its mask set, its observation
encoded into its row, and its reward/done/truncated mirrored into the
bound shared buffer (`rewards[agent]` raising `KeyError` when the wrapped
environment returned an observation but no reward/done/truncated for it). -/

def pzStepObsLoop (ad : PettingZooPufferEnv) (r : PZStepResult) :
    PZState → Nat → List String → Except Err PZState
  | s, _, [] => .ok s
  | s, i, agent :: rest =>
      match r.obs.lookup agent with
      | none =>
          pzStepObsLoop ad r
            { s with slots := s.slots.set i
                       (List.replicate ad.env.observation_space.itemsize 0) } (i + 1) rest
      | some ob => do
          let rew ← lookupOrKeyError r.rewards agent
          let dn ← lookupOrKeyError r.dones agent
          let tr ← lookupOrKeyError r.truncateds agent
          pzStepObsLoop ad r
            { s with mask := setAssoc s.mask agent true,
                     slots := s.slots.set i (slotBytes ad ob),
                     memRew := s.memRew.set i rew,
                     memDone := s.memDone.set i dn,
                     memTrunc := s.memTrunc.set i tr,
                     memMask := s.memMask.set i true } (i + 1) rest

/-- `PettingZooPufferEnv.step`: raises `APIUsageError` before any reset or
while the `done` property holds; otherwise runs the one-shot action check
on the first incoming action (`next(iter(actions.values()))`, raising
`StopIteration` on an empty dict) against the (emulated)
`single_action_space`, unpacks the actions, steps the wrapped environment
(oracle `r`), rebuilds mask and observation rows over the possible agents,
sets `all_done = all(dones.values())` from the environment's raw dones,
and pads rewards/dones/truncateds over the full possible-agent population. -/

def PettingZooPufferEnv.step (ad : PettingZooPufferEnv) (s : PZState)
    (actions : List (String × List Int)) (r : PZStepResult) : Except Err PZStepOut :=
  if !s.inited then .error .apiUsageError
  else if PettingZooPufferEnv.done s then .error .apiUsageError
  else do
    let (s1, ev) ←
      if s.is_action_checked then pure (s, none)
      else
        match actions with
        | [] => .error .stopIteration
        | (_, a0) :: _ => do
            let b ← check_space (.flat a0) ad.single_action_space
            pure ({ s with is_action_checked := b },
              some ((.flat a0 : Val), ad.single_action_space))
    let _ ← pzUnpackActions ad s1 actions
    let s2 : PZState :=
      { s1 with agents := r.agents,
                mask := ad.possible_agents.map (fun a => (a, false)) }
    let s3 ← pzStepObsLoop ad r s2 0 ad.possible_agents
    let s4 : PZState := { s3 with all_done := r.dones.all (fun p => p.2) }
    .ok { state := s4,
          rewards := pad_agent_data r.rewards ad.possible_agents 0,
          dones := pad_agent_data r.dones ad.possible_agents false,
          truncateds := pad_agent_data r.truncateds ad.possible_agents false,
          checked := ev }

inductive PZOp where
  | reset (r : PZResetResult)
  | step (actions : List (String × List Int)) (r : PZStepResult)
  deriving DecidableEq, Repr

def PZOp.isStep : PZOp → Bool
  | .step _ _ => true
  | .reset _ => false

/-- Drive one multi-agent adapter instance through a sequence of calls,
counting the observation- and action-containment checks that fire. -/

def pzRun (ad : PettingZooPufferEnv) : PZState → List PZOp → Except Err (PZState × Nat × Nat)
  | s, [] => .ok (s, 0, 0)
  | s, .reset r :: ops => do
      let o ← PettingZooPufferEnv.reset ad s r
      let (s', no, na) ← pzRun ad o.state ops
      .ok (s', countEv o.checked + no, na)
  | s, .step a r :: ops => do
      let o ← PettingZooPufferEnv.step ad s a r
      let (s', no, na) ← pzRun ad o.state ops
      .ok (s', no, countEv o.checked + na)

/-! ## Seeding fallback (`_seed_and_reset`) -/

/-- The wrapped environment's seeding-related operations, each of which may
fail (`.error ()` models the call raising): `resetSeeded` is
`env.reset(seed=seed)`, `seed` the legacy `env.seed(value)`, `resetPlain`
a plain `env.reset()`. -/

structure SeedEnv where
  resetSeeded : Nat → Except Unit Sample
  seed : Nat → Except Unit Unit
  resetPlain : Except Unit Sample

/-- `_seed_and_reset(env, seed)`: with a None seed, a plain reset (a Gym
bug workaround).  With a real seed, three stages: (1) a seeded reset call;
on any failure (2) an explicit seed call followed by an unseeded reset; on
any failure there (3) a plain unseeded reset together with a non-fatal
deprecation warning.  The returned Bool records whether the stage-3
warning was emitted. -/

def _seed_and_reset (env : SeedEnv) (seed : Option Nat) : Except Unit (Sample × Bool) :=
  match seed with
  | none => do
      let ob ← env.resetPlain
      .ok (ob, false)
  | some sd =>
      match env.resetSeeded sd with
      | .ok ob => .ok (ob, false)
      | .error _ =>
          match (do
              let _ ← env.seed sd
              env.resetPlain : Except Unit Sample) with
          | .ok ob => .ok (ob, false)
          | .error _ => do
              let ob ← env.resetPlain
              .ok (ob, true)

/-! ## Concrete fixtures used by witness and counterexample theorems -/

def gymEnvFix : GymEnv :=
  { observation_space := .box .u8 [] 0 10,
    action_space := .tup (.cons (.discrete 3) (.cons (.discrete 2) .nil)) }

def gymAdFix : GymnasiumPufferEnv :=
  { env := gymEnvFix, observation_space := .box .u8 [] 0 10,
    action_space := .multidiscrete [3, 2],
    is_obs_emulated := false, is_atn_emulated := true }

def gymOpsFix : List GymOp :=
  [.reset (.leaf [] [5]),
   .step [1, 0] ⟨.leaf [] [6], 1, false, false⟩,
   .step [2, 1] ⟨.leaf [] [7], 0, false, false⟩]

def gymRunEndFix : GymState :=
  { inited := true, done := false, is_observation_checked := true,
    is_action_checked := true, obs := .sample (.leaf [] [7]) }

def gymStState : GymState :=
  { inited := true, done := false, is_observation_checked := true,
    is_action_checked := false, obs := .sample (.leaf [] [5]) }

def pzEnvFix : PZEnv :=
  { possible_agents := ["a", "b"],
    observation_space := .box .u8 [] 0 10, action_space := .discrete 3 }

def pzAdFix : PettingZooPufferEnv :=
  { env := pzEnvFix, single_observation_space := .box .u8 [] 0 10,
    single_action_space := .discrete 3,
    is_obs_emulated := false, is_atn_emulated := false }

def pzStateFix : PZState :=
  { inited := true, all_done := false, is_observation_checked := true,
    is_action_checked := true, agents := ["a", "b"],
    slots := [[5], [6]], mask := [("a", true), ("b", true)],
    memRew := [0, 0], memDone := [false, false], memTrunc := [false, false],
    memMask := [false, false] }

/-- A step response in which agent "b" is inactive and omitted from every
returned mapping. -/

def pzStepResFix : PZStepResult :=
  { obs := [("a", .leaf [] [7])], rewards := [("a", 2)], dones := [("a", false)],
    truncateds := [("a", false)], agents := ["a"] }

/-- A step response whose only remaining active agent "a" is reported done,
while the inactive agent "b" is reported not done (as a truncated agent
would be). -/

def pzStepResDoneFix : PZStepResult :=
  { obs := [("a", .leaf [] [7])], rewards := [("a", 2)],
    dones := [("a", true), ("b", false)],
    truncateds := [("a", false)], agents := ["a"] }

def pzOpsFix : List PZOp :=
  [.reset ⟨[("a", .leaf [] [5]), ("b", .leaf [] [6])], ["a", "b"]⟩,
   .step [("a", [1]), ("b", [2])]
     ⟨[("a", .leaf [] [7]), ("b", .leaf [] [8])], [("a", 1), ("b", 0)],
      [("a", false), ("b", false)], [("a", false), ("b", false)], ["a", "b"]⟩,
   .step [("a", [0]), ("b", [1])]
     ⟨[("a", .leaf [] [3]), ("b", .leaf [] [4])], [("a", 1), ("b", 0)],
      [("a", false), ("b", false)], [("a", false), ("b", false)], ["a", "b"]⟩]

def pzRunEndFix : PZState :=
  { inited := true, all_done := false, is_observation_checked := true,
    is_action_checked := true, agents := ["a", "b"],
    slots := [[3], [4]], mask := [("a", true), ("b", true)],
    memRew := [1, 0], memDone := [false, false], memTrunc := [false, false],
    memMask := [true, true] }

/-- A seed-fallback environment whose seeded reset and legacy seed call both
fail while the plain reset succeeds. -/

def seedEnvFix : SeedEnv :=
  { resetSeeded := fun _ => .error (),
    seed := fun _ => .error (),
    resetPlain := .ok (.leaf [] [5]) }

/-! ## Claim theorems -/

def c1SpaceFix : Space := .tup (.cons (.box .i8 [2] (-10) 10) .nil)

def c1SampleFix : Sample := .tup (.cons (.leaf [2] [3, 4]) .nil)

def c1WitSpace : Space :=
  .dict (.cons "pos" (.tup (.cons (.box .i16 [] (-1000) 1000) (.cons (.discrete 5) .nil)))
    (.cons "hp" (.box .u8 [] 0 255) .nil))

def c1WitSample : Sample :=
  .dict (.cons "pos" (.tup (.cons (.leaf [] [-37]) (.cons (.leaf [] [4]) .nil)))
    (.cons "hp" (.leaf [] [200]) .nil))

def c2SpaceFix : Space :=
  .tup (.cons (.box .i16 [] 0 9) (.cons (.box .i16 [2] 0 9) .nil))

def pzStepOutFix : PZStepOut :=
  { state := { inited := true, all_done := false, is_observation_checked := true,
               is_action_checked := true, agents := ["a"],
               slots := [[7], [0]], mask := [("a", true), ("b", false)],
               memRew := [2, 0], memDone := [false, false],
               memTrunc := [false, false], memMask := [true, false] },
    rewards := [("a", 2), ("b", 0)],
    dones := [("a", false), ("b", false)],
    truncateds := [("a", false), ("b", false)],
    checked := none }

def pzResetOutFix : PZResetOut :=
  { state := { inited := true, all_done := false, is_observation_checked := true,
               is_action_checked := false, agents := ["a", "b"],
               slots := [[5], [6]], mask := [("a", true), ("b", true)],
               memRew := [0, 0], memDone := [false, false],
               memTrunc := [false, false], memMask := [false, false] },
    checked := some (.flat [5], .box .u8 [] 0 10) }

def gymAtnFix : Sample :=
  .tup (.cons (.leaf [] [1]) (.cons (.leaf [] [0]) .nil))

theorem Dtype.size_pos (dt : Dtype) : 0 < dt.size := by cases dt <;> simp [Dtype.size]

theorem length_natBytes (u k : Nat) : (natBytes u k).length = k := by
  induction k generalizing u with
  | zero => rfl
  | succ k ih => simp [natBytes, ih]

theorem bytesToNat_natBytes (u k : Nat) (h : u < 2 ^ (8 * k)) :
    bytesToNat (natBytes u k) = u := by
  induction k generalizing u with
  | zero => simp [natBytes, bytesToNat]; omega
  | succ k ih =>
      have h256 : u / 256 < 2 ^ (8 * k) := by
        have : 2 ^ (8 * (k + 1)) = 2 ^ (8 * k) * 256 := by ring
        rw [this] at h
        omega
      simp [natBytes, bytesToNat, ih _ h256]
      omega

theorem length_encodeScalar (dt : Dtype) (v : Int) :
    (encodeScalar dt v).length = dt.size := by
  simp [encodeScalar, length_natBytes]

theorem decodeScalar_encodeScalar (dt : Dtype) (v : Int) (h : dt.inRange v = true) :
    decodeScalar dt (encodeScalar dt v) = v := by
  have hs := dt.size_pos
  set m : Nat := 8 * dt.size with hm
  have hm1 : 1 ≤ m := by omega
  have hpow : (1 : Nat) ≤ 2 ^ (m - 1) := Nat.one_le_two_pow
  have hsplit : 2 ^ m = 2 ^ (m - 1) * 2 := by
    rw [← pow_succ]
    congr 1
    omega
  have hmodpos : (0 : Int) < (2 ^ m : Int) := by positivity
  have hmod := Int.emod_nonneg v (ne_of_gt hmodpos)
  have hmodlt := Int.emod_lt_of_pos v hmodpos
  have htoNat : ((v % (2 ^ m : Int)).toNat : Int) = v % (2 ^ m : Int) :=
    Int.toNat_of_nonneg hmod
  have hcast : ((2 : Int) ^ m) = ((2 ^ m : Nat) : Int) := by push_cast; ring
  have hult : (v % (2 ^ m : Int)).toNat < 2 ^ m := by
    have := hmodlt
    omega
  unfold decodeScalar encodeScalar
  rw [← hm, bytesToNat_natBytes _ _ hult]
  by_cases hsg : dt.signed
  · -- signed: in-range means -2^(m-1) ≤ v < 2^(m-1)
    have hb : -((2 : Int) ^ (m - 1)) ≤ v ∧ v ≤ (2 : Int) ^ (m - 1) - 1 := by
      simp [Dtype.inRange, _get_dtype_bounds, hsg, ← hm] at h
      exact h
    have hcast1 : ((2 : Int) ^ (m - 1)) = ((2 ^ (m - 1) : Nat) : Int) := by push_cast; ring
    by_cases hneg : v < 0
    · have hveq : v % (2 ^ m : Int) = v + 2 ^ m := by
        have : (v + 2 ^ m) % (2 ^ m : Int) = v % (2 ^ m : Int) := by
          simp [Int.add_mul_emod_self_left]
        rw [← this]
        apply Int.emod_eq_of_lt <;> omega
      rw [hveq] at htoNat ⊢
      have hge : 2 ^ (m - 1) ≤ (v + 2 ^ m : Int).toNat := by omega
      simp only [hsg, true_and]
      rw [if_pos hge]
      omega
    · have hveq : v % (2 ^ m : Int) = v := by
        apply Int.emod_eq_of_lt <;> omega
      rw [hveq] at htoNat ⊢
      have hlt : ¬ (2 ^ (m - 1) ≤ (v : Int).toNat) := by omega
      simp only [hsg, true_and]
      rw [if_neg hlt]
      omega
  · -- unsigned: in-range means 0 ≤ v < 2^m
    have hb : (0 : Int) ≤ v ∧ v ≤ (2 : Int) ^ m - 1 := by
      simp [Dtype.inRange, _get_dtype_bounds, hsg, ← hm] at h
      exact h
    have hveq : v % (2 ^ m : Int) = v := by
      apply Int.emod_eq_of_lt <;> omega
    rw [hveq] at htoNat ⊢
    simp only [hsg, false_and]
    rw [if_neg (by simp)]
    omega

theorem readBytes_length (f : Buf) (off n : Nat) : (readBytes f off n).length = n := by
  induction n generalizing off with
  | zero => rfl
  | succ n ih => simp [readBytes, ih]

/-- Bytes outside the written range are untouched. -/

theorem writeBytes_frame (bs : List Nat) (f : Buf) (off j : Nat)
    (h : j < off ∨ off + bs.length ≤ j) : writeBytes f off bs j = f j := by
  induction bs generalizing f off with
  | nil => rfl
  | cons b bs ih =>
      simp only [writeBytes]
      rw [ih]
      · simp only [writeByte]
        rw [if_neg]
        simp at h
        omega
      · simp at h ⊢
        omega

/-- Reading depends only on the bytes of the read range. -/

theorem readBytes_congr (f g : Buf) (off n : Nat)
    (h : ∀ i, off ≤ i → i < off + n → f i = g i) :
    readBytes f off n = readBytes g off n := by
  induction n generalizing off with
  | zero => rfl
  | succ n ih =>
      simp only [readBytes]
      congr 1
      · exact h off (le_refl off) (by omega)
      · exact ih (off + 1) (fun i h1 h2 => h i (by omega) (by omega))

/-- Reading back exactly the range just written yields the written bytes. -/

theorem readBytes_writeBytes (bs : List Nat) (f : Buf) (off : Nat) :
    readBytes (writeBytes f off bs) off bs.length = bs := by
  induction bs generalizing f off with
  | nil => rfl
  | cons b bs ih =>
      simp only [writeBytes, List.length_cons, readBytes]
      congr 1
      · rw [writeBytes_frame _ _ _ _ (by omega)]
        simp [writeByte]
      · exact ih (writeByte f off b) (off + 1)

/-! ## Layout arithmetic -/

theorem le_alignUp (off a : Nat) (ha : 0 < a) : off ≤ alignUp off a := by
  unfold alignUp
  rw [Nat.mul_comm]
  have h := Nat.div_add_mod (off + a - 1) a
  have h2 := Nat.mod_lt (off + a - 1) ha
  omega

theorem alignUp_eq_of_dvd (off a : Nat) (ha : 0 < a) (h : a ∣ off) :
    alignUp off a = off := by
  unfold alignUp
  obtain ⟨c, rfl⟩ := h
  have h1 : (a * c + a - 1) / a = c + (a - 1) / a := by
    rw [Nat.mul_comm a c]
    rw [show c * a + a - 1 = (a - 1) + c * a by omega]
    rw [Nat.add_mul_div_right _ _ ha]
    omega
  rw [h1]
  have h2 : (a - 1) / a = 0 := Nat.div_eq_of_lt (by omega)
  rw [h2]
  ring

theorem dvd_alignUp (off a d : Nat) (h : d ∣ a) : d ∣ alignUp off a := by
  unfold alignUp
  exact Dvd.dvd.mul_left h _

mutual
theorem Space.alignment_pos : ∀ sp : Space, 0 < sp.alignment
  | .box dt _ _ _ => by simpa [Space.alignment] using dt.size_pos
  | .discrete _ => by simp [Space.alignment]
  | .multidiscrete _ => by simp [Space.alignment]
  | .tup cs => by simpa [Space.alignment] using spaceListAlignment_pos cs
  | .dict cs => by simpa [Space.alignment] using spaceDictAlignment_pos cs

theorem spaceListAlignment_pos : ∀ cs : SpaceList, 0 < cs.alignment
  | .nil => by simp [SpaceList.alignment]
  | .cons c cs => by
      have h1 := Space.alignment_pos c
      simp only [SpaceList.alignment]
      omega

theorem spaceDictAlignment_pos : ∀ cs : SpaceDict, 0 < cs.alignment
  | .nil => by simp [SpaceDict.alignment]
  | .cons _ c cs => by
      have h1 := Space.alignment_pos c
      simp only [SpaceDict.alignment]
      omega
end

theorem spaceListEndOff_mono : ∀ (cs : SpaceList) (rel : Nat), rel ≤ cs.endOff rel
  | .nil, rel => le_refl rel
  | .cons c cs, rel => by
      simp only [SpaceList.endOff]
      calc rel ≤ alignUp rel c.alignment := le_alignUp _ _ c.alignment_pos
        _ ≤ alignUp rel c.alignment + c.itemsize := by omega
        _ ≤ _ := spaceListEndOff_mono cs _

theorem spaceDictEndOff_mono : ∀ (cs : SpaceDict) (rel : Nat), rel ≤ cs.endOff rel
  | .nil, rel => le_refl rel
  | .cons _ c cs, rel => by
      simp only [SpaceDict.endOff]
      calc rel ≤ alignUp rel c.alignment := le_alignUp _ _ c.alignment_pos
        _ ≤ alignUp rel c.alignment + c.itemsize := by omega
        _ ≤ _ := spaceDictEndOff_mono cs _

theorem spaceListEndOff_le_itemsize (cs : SpaceList) :
    cs.endOff 0 ≤ Space.itemsize (.tup cs) := by
  simp only [Space.itemsize]
  exact le_alignUp _ _ (Space.alignment_pos (.tup cs))

theorem spaceDictEndOff_le_itemsize (cs : SpaceDict) :
    cs.endOff 0 ≤ Space.itemsize (.dict cs) := by
  simp only [Space.itemsize]
  exact le_alignUp _ _ (Space.alignment_pos (.dict cs))

theorem length_encodeLeafBytes (dt : Dtype) (vals : List Int) :
    (encodeLeafBytes dt vals).length = vals.length * dt.size := by
  induction vals with
  | nil => simp [encodeLeafBytes]
  | cons v vs ih => simp [encodeLeafBytes, ih, length_encodeScalar]; ring

mutual
/-- A conforming write at `off` only touches bytes in `[off, off+itemsize)`. -/
theorem _emulate_frame : ∀ (sp : Space) (s : Sample) (arr : Buf) (off j : Nat),
    conforms sp s = true → (j < off ∨ off + sp.itemsize ≤ j) →
    _emulate arr off sp s j = arr j
  | .box dt shape lo hi => fun s arr off j hc hj => by
      cases s with
      | leaf sh vals =>
          simp only [conforms, Bool.and_eq_true, decide_eq_true_eq] at hc
          simp only [_emulate]
          apply writeBytes_frame
          have hlen : (encodeLeafBytes dt vals).length = dt.size * prodShape shape := by
            rw [length_encodeLeafBytes, hc.1.2, Nat.mul_comm]
          rw [hlen]
          simpa only [Space.itemsize] using hj
      | tup vs => simp [conforms] at hc
      | dict vs => simp [conforms] at hc
  | .discrete n => fun s arr off j hc hj => by
      cases s with
      | leaf sh vals =>
          cases vals with
          | nil => simp [conforms] at hc
          | cons v vs =>
              cases vs with
              | nil =>
                  simp only [_emulate]
                  apply writeBytes_frame
                  rw [length_encodeLeafBytes]
                  simpa only [Space.itemsize, List.length_singleton, Dtype.size,
                    Nat.one_mul] using hj
              | cons v2 vs2 => simp [conforms] at hc
      | tup vs => simp [conforms] at hc
      | dict vs => simp [conforms] at hc
  | .multidiscrete ns => fun s arr off j hc hj => by
      cases s with
      | leaf sh vals =>
          simp only [conforms, Bool.and_eq_true, decide_eq_true_eq] at hc
          simp only [_emulate]
          apply writeBytes_frame
          have hlen : (encodeLeafBytes .i64 vals).length = 8 * ns.length := by
            rw [length_encodeLeafBytes, hc.1.2, Nat.mul_comm]
            rfl
          rw [hlen]
          simpa only [Space.itemsize] using hj
      | tup vs => simp [conforms] at hc
      | dict vs => simp [conforms] at hc
  | .tup cs => fun s arr off j hc hj => by
      cases s with
      | leaf sh vals => simp [conforms] at hc
      | tup vs =>
          have hc' : conformsList cs vs = true := hc
          have hle := le_alignUp (cs.endOff 0) (Space.alignment (.tup cs))
            (Space.alignment_pos (.tup cs))
          simp only [Space.itemsize] at hj
          simp only [_emulate]
          apply _emulateList_frame cs vs arr off 0 j hc'
          omega
      | dict vs => simp [conforms] at hc
  | .dict cs => fun s arr off j hc hj => by
      cases s with
      | leaf sh vals => simp [conforms] at hc
      | tup vs => simp [conforms] at hc
      | dict vs =>
          have hc' : conformsDict cs vs = true := hc
          have hle := le_alignUp (cs.endOff 0) (Space.alignment (.dict cs))
            (Space.alignment_pos (.dict cs))
          simp only [Space.itemsize] at hj
          simp only [_emulate]
          apply _emulateDict_frame cs vs arr off 0 j hc'
          omega

theorem _emulateList_frame : ∀ (cs : SpaceList) (vs : SampleList) (arr : Buf)
    (base rel j : Nat), conformsList cs vs = true →
    (j < base + rel ∨ base + cs.endOff rel ≤ j) →
    _emulateList arr base rel cs vs j = arr j
  | .nil => fun vs arr base rel j hc hj => by
      cases vs <;> simp [_emulateList]
  | .cons c cs => fun vs arr base rel j hc hj => by
      cases vs with
      | nil => simp [conformsList] at hc
      | cons v vs =>
          simp only [conformsList, Bool.and_eq_true] at hc
          simp only [_emulateList]
          have har := Space.alignment_pos c
          have h1 : rel ≤ alignUp rel c.alignment := le_alignUp _ _ har
          have h2 := spaceListEndOff_mono cs (alignUp rel c.alignment + c.itemsize)
          have hend : SpaceList.endOff (.cons c cs) rel
              = cs.endOff (alignUp rel c.alignment + c.itemsize) := rfl
          rw [hend] at hj
          rw [_emulateList_frame cs vs _ base (alignUp rel c.alignment + c.itemsize) j
            hc.2 (by omega)]
          exact _emulate_frame c v arr (base + alignUp rel c.alignment) j hc.1 (by omega)

theorem _emulateDict_frame : ∀ (cs : SpaceDict) (vs : SampleDict) (arr : Buf)
    (base rel j : Nat), conformsDict cs vs = true →
    (j < base + rel ∨ base + cs.endOff rel ≤ j) →
    _emulateDict arr base rel cs vs j = arr j
  | .nil => fun vs arr base rel j hc hj => by
      cases vs <;> simp [_emulateDict]
  | .cons k c cs => fun vs arr base rel j hc hj => by
      cases vs with
      | nil => simp [conformsDict] at hc
      | cons k' v vs =>
          simp only [conformsDict, Bool.and_eq_true] at hc
          simp only [_emulateDict]
          have har := Space.alignment_pos c
          have h1 : rel ≤ alignUp rel c.alignment := le_alignUp _ _ har
          have h2 := spaceDictEndOff_mono cs (alignUp rel c.alignment + c.itemsize)
          have hend : SpaceDict.endOff (.cons k c cs) rel
              = cs.endOff (alignUp rel c.alignment + c.itemsize) := rfl
          rw [hend] at hj
          rw [_emulateDict_frame cs vs _ base (alignUp rel c.alignment + c.itemsize) j
            hc.2 (by omega)]
          exact _emulate_frame c v arr (base + alignUp rel c.alignment) j hc.1.2 (by omega)
end

mutual
/-- Reconstruction at `off` depends only on the bytes in `[off, off+itemsize)`. -/
theorem _nativize_congr : ∀ (sp : Space) (arr arr' : Buf) (off : Nat),
    (∀ i, off ≤ i → i < off + sp.itemsize → arr i = arr' i) →
    _nativize arr off sp = _nativize arr' off sp
  | .box dt shape lo hi => fun arr arr' off h => by
      simp only [_nativize]
      by_cases hp : prodShape shape = 1
      · rw [if_pos hp, if_pos hp]
        rw [show readBytes arr off dt.size = readBytes arr' off dt.size from
          readBytes_congr arr arr' off dt.size (fun i h1 h2 => h i h1
            (by simp only [Space.itemsize, hp, Nat.mul_one]; omega))]
      · rw [if_neg hp, if_neg hp]
  | .discrete n => fun arr arr' off h => by
      simp only [_nativize]
      rw [show readBytes arr off 8 = readBytes arr' off 8 from
        readBytes_congr arr arr' off 8 (fun i h1 h2 => h i h1
          (by simpa only [Space.itemsize] using h2))]
  | .multidiscrete ns => fun arr arr' off h => by
      simp only [_nativize]
      by_cases hp : ns.length = 1
      · rw [if_pos hp, if_pos hp]
        rw [show readBytes arr off 8 = readBytes arr' off 8 from
          readBytes_congr arr arr' off 8 (fun i h1 h2 => h i h1
            (by simp only [Space.itemsize, hp, Nat.mul_one]; omega))]
      · rw [if_neg hp, if_neg hp]
  | .tup cs => fun arr arr' off h => by
      have hle := spaceListEndOff_le_itemsize cs
      simp only [_nativize]
      rw [show _nativizeList arr off 0 cs = _nativizeList arr' off 0 cs from
        _nativizeList_congr cs arr arr' off 0 (fun i h1 h2 => h i (by omega) (by omega))]
  | .dict cs => fun arr arr' off h => by
      have hle := spaceDictEndOff_le_itemsize cs
      simp only [_nativize]
      rw [show _nativizeDict arr off 0 cs = _nativizeDict arr' off 0 cs from
        _nativizeDict_congr cs arr arr' off 0 (fun i h1 h2 => h i (by omega) (by omega))]

theorem _nativizeList_congr : ∀ (cs : SpaceList) (arr arr' : Buf) (base rel : Nat),
    (∀ i, base + rel ≤ i → i < base + cs.endOff rel → arr i = arr' i) →
    _nativizeList arr base rel cs = _nativizeList arr' base rel cs
  | .nil => fun arr arr' base rel h => by simp [_nativizeList]
  | .cons c cs => fun arr arr' base rel h => by
      have har := Space.alignment_pos c
      have h1 : rel ≤ alignUp rel c.alignment := le_alignUp _ _ har
      have h2 := spaceListEndOff_mono cs (alignUp rel c.alignment + c.itemsize)
      have hend : SpaceList.endOff (.cons c cs) rel
          = cs.endOff (alignUp rel c.alignment + c.itemsize) := rfl
      rw [hend] at h
      simp only [_nativizeList]
      rw [show _nativize arr (base + alignUp rel c.alignment) c
            = _nativize arr' (base + alignUp rel c.alignment) c from
          _nativize_congr c arr arr' _ (fun i hi1 hi2 => h i (by omega) (by omega))]
      rw [show _nativizeList arr base (alignUp rel c.alignment + c.itemsize) cs
            = _nativizeList arr' base (alignUp rel c.alignment + c.itemsize) cs from
          _nativizeList_congr cs arr arr' base _ (fun i hi1 hi2 => h i (by omega) hi2)]

theorem _nativizeDict_congr : ∀ (cs : SpaceDict) (arr arr' : Buf) (base rel : Nat),
    (∀ i, base + rel ≤ i → i < base + cs.endOff rel → arr i = arr' i) →
    _nativizeDict arr base rel cs = _nativizeDict arr' base rel cs
  | .nil => fun arr arr' base rel h => by simp [_nativizeDict]
  | .cons k c cs => fun arr arr' base rel h => by
      have har := Space.alignment_pos c
      have h1 : rel ≤ alignUp rel c.alignment := le_alignUp _ _ har
      have h2 := spaceDictEndOff_mono cs (alignUp rel c.alignment + c.itemsize)
      have hend : SpaceDict.endOff (.cons k c cs) rel
          = cs.endOff (alignUp rel c.alignment + c.itemsize) := rfl
      rw [hend] at h
      simp only [_nativizeDict]
      rw [show _nativize arr (base + alignUp rel c.alignment) c
            = _nativize arr' (base + alignUp rel c.alignment) c from
          _nativize_congr c arr arr' _ (fun i hi1 hi2 => h i (by omega) (by omega))]
      rw [show _nativizeDict arr base (alignUp rel c.alignment + c.itemsize) cs
            = _nativizeDict arr' base (alignUp rel c.alignment + c.itemsize) cs from
          _nativizeDict_congr cs arr arr' base _ (fun i hi1 hi2 => h i (by omega) hi2)]
end

mutual
/-- Round trip: writing a conforming sample and reconstructing it returns
the sample exactly, provided every leaf of the schema is scalar-shaped. -/
theorem _nativize_emulate : ∀ (sp : Space) (s : Sample) (arr : Buf) (off : Nat),
    conforms sp s = true → allScalarLeaves sp = true →
    _nativize (_emulate arr off sp s) off sp = .ok s
  | .box dt shape lo hi => fun s arr off hc hs => by
      cases s with
      | tup vs => simp [conforms] at hc
      | dict vs => simp [conforms] at hc
      | leaf sh vals =>
          cases shape with
          | cons d ds => simp [allScalarLeaves] at hs
          | nil =>
              simp only [conforms, Bool.and_eq_true, decide_eq_true_eq,
                List.all_eq_true] at hc
              obtain ⟨⟨hsh, hlen⟩, hall⟩ := hc
              have hp : prodShape ([] : List Nat) = 1 := rfl
              rw [hp] at hlen
              cases vals with
              | nil => simp at hlen
              | cons v vs =>
              cases vs with
              | cons v2 vs2 => simp at hlen
              | nil =>
                  simp only [_emulate, _nativize]
                  rw [if_pos hp]
                  have henc : encodeLeafBytes dt [v] = encodeScalar dt v := by
                    simp [encodeLeafBytes]
                  rw [henc]
                  have hrw := readBytes_writeBytes (encodeScalar dt v) arr off
                  rw [length_encodeScalar] at hrw
                  rw [hrw, decodeScalar_encodeScalar dt v (hall v (by simp)), hsh]
  | .discrete n => fun s arr off hc _ => by
      cases s with
      | tup vs => simp [conforms] at hc
      | dict vs => simp [conforms] at hc
      | leaf sh vals =>
          cases vals with
          | nil => simp [conforms] at hc
          | cons v vs =>
          cases vs with
          | cons v2 vs2 => simp [conforms] at hc
          | nil =>
              simp only [conforms, Bool.and_eq_true, decide_eq_true_eq] at hc
              obtain ⟨⟨⟨hsh, _⟩, _⟩, hr⟩ := hc
              simp only [_emulate, _nativize]
              have henc : encodeLeafBytes .i64 [v] = encodeScalar .i64 v := by
                simp [encodeLeafBytes]
              rw [henc]
              have hrw := readBytes_writeBytes (encodeScalar .i64 v) arr off
              rw [length_encodeScalar] at hrw
              rw [show (8 : Nat) = Dtype.size .i64 from rfl, hrw,
                decodeScalar_encodeScalar _ v hr, hsh]
  | .multidiscrete ns => fun s arr off hc hs => by
      simp [allScalarLeaves] at hs
  | .tup cs => fun s arr off hc hs => by
      cases s with
      | leaf sh vals => simp [conforms] at hc
      | dict vs => simp [conforms] at hc
      | tup vs =>
          have hc' : conformsList cs vs = true := hc
          have hs' : allScalarList cs = true := hs
          simp only [_emulate, _nativize]
          rw [_nativizeList_emulateList cs vs arr off 0 hc' hs']
          rfl
  | .dict cs => fun s arr off hc hs => by
      cases s with
      | leaf sh vals => simp [conforms] at hc
      | tup vs => simp [conforms] at hc
      | dict vs =>
          have hc' : conformsDict cs vs = true := hc
          have hs' : allScalarDict cs = true := hs
          simp only [_emulate, _nativize]
          rw [_nativizeDict_emulateDict cs vs arr off 0 hc' hs']
          rfl

theorem _nativizeList_emulateList : ∀ (cs : SpaceList) (vs : SampleList) (arr : Buf)
    (base rel : Nat), conformsList cs vs = true → allScalarList cs = true →
    _nativizeList (_emulateList arr base rel cs vs) base rel cs = .ok vs
  | .nil => fun vs arr base rel hc _ => by
      cases vs with
      | nil => simp [_emulateList, _nativizeList]
      | cons v vs => simp [conformsList] at hc
  | .cons c cs => fun vs arr base rel hc hs => by
      cases vs with
      | nil => simp [conformsList] at hc
      | cons v vs =>
          simp only [conformsList, Bool.and_eq_true] at hc
          simp only [allScalarList, Bool.and_eq_true] at hs
          simp only [_emulateList, _nativizeList]
          have har := Space.alignment_pos c
          rw [show _nativize (_emulateList (_emulate arr (base + alignUp rel c.alignment) c v)
                base (alignUp rel c.alignment + c.itemsize) cs vs)
                (base + alignUp rel c.alignment) c
              = _nativize (_emulate arr (base + alignUp rel c.alignment) c v)
                (base + alignUp rel c.alignment) c from
            _nativize_congr c _ _ _ (fun i hi1 hi2 =>
              _emulateList_frame cs vs _ base _ i hc.2 (Or.inl (by omega)))]
          rw [_nativize_emulate c v arr (base + alignUp rel c.alignment) hc.1 hs.1]
          rw [_nativizeList_emulateList cs vs _ base (alignUp rel c.alignment + c.itemsize)
            hc.2 hs.2]
          rfl

theorem _nativizeDict_emulateDict : ∀ (cs : SpaceDict) (vs : SampleDict) (arr : Buf)
    (base rel : Nat), conformsDict cs vs = true → allScalarDict cs = true →
    _nativizeDict (_emulateDict arr base rel cs vs) base rel cs = .ok vs
  | .nil => fun vs arr base rel hc _ => by
      cases vs with
      | nil => simp [_emulateDict, _nativizeDict]
      | cons k v vs => simp [conformsDict] at hc
  | .cons k c cs => fun vs arr base rel hc hs => by
      cases vs with
      | nil => simp [conformsDict] at hc
      | cons k' v vs =>
          simp only [conformsDict, Bool.and_eq_true, decide_eq_true_eq] at hc
          simp only [allScalarDict, Bool.and_eq_true] at hs
          simp only [_emulateDict, _nativizeDict]
          have har := Space.alignment_pos c
          rw [show _nativize (_emulateDict (_emulate arr (base + alignUp rel c.alignment) c v)
                base (alignUp rel c.alignment + c.itemsize) cs vs)
                (base + alignUp rel c.alignment) c
              = _nativize (_emulate arr (base + alignUp rel c.alignment) c v)
                (base + alignUp rel c.alignment) c from
            _nativize_congr c _ _ _ (fun i hi1 hi2 =>
              _emulateDict_frame cs vs _ base _ i hc.2 (Or.inl (by omega)))]
          rw [_nativize_emulate c v arr (base + alignUp rel c.alignment) hc.1.2 hs.1]
          rw [_nativizeDict_emulateDict cs vs _ base (alignUp rel c.alignment + c.itemsize)
            hc.2 hs.2]
          rw [hc.1.1]
          rfl
end

/-- Round trip at the top level: `nativize(emulate(s))` recovers any
conforming sample over a schema whose leaves are all scalar-shaped. -/

theorem nativize_emulate (sp : Space) (s : Sample) (hc : conforms sp s = true)
    (hs : allScalarLeaves sp = true) : nativize (emulate sp s) sp = .ok s :=
  _nativize_emulate sp s zeroBuf 0 hc hs

theorem totalNumelList_cons (c : Space) (cs : SpaceList) :
    totalNumelList (.cons c cs) = totalNumel c + totalNumelList cs := by
  simp [totalNumelList, flattenSubspaces, totalNumel]

theorem totalNumelDict_cons (k : String) (c : Space) (cs : SpaceDict) :
    totalNumelDict (.cons k c cs) = totalNumel c + totalNumelDict cs := by
  simp [totalNumelDict, flattenSubspacesD, totalNumel]

mutual
/-- When every leaf dtype equals `dt`, the aligned packed layout has no
padding: the byte size is exactly `dt.size` times the total element count,
and every alignment in the tree is `1` or `dt.size`. -/
theorem homog_layout : ∀ (sp : Space) (dt : Dtype),
    (∀ d ∈ leafDtypesOf sp, d = dt) →
    sp.itemsize = dt.size * totalNumel sp ∧ (sp.alignment = 1 ∨ sp.alignment = dt.size)
  | .box dt' shape lo hi => fun dt h => by
      have hd : dt' = dt := h dt' (by simp [leafDtypesOf, flatten_space, Space.dtypeOf])
      subst hd
      refine ⟨?_, Or.inr rfl⟩
      simp [Space.itemsize, totalNumel, flatten_space, Space.numelOf, Space.shapeOf]
  | .discrete n => fun dt h => by
      have hd : Dtype.i64 = dt := h _ (by simp [leafDtypesOf, flatten_space, Space.dtypeOf])
      subst hd
      exact ⟨by simp [Space.itemsize, totalNumel, flatten_space, Space.numelOf,
        Space.shapeOf, prodShape, Dtype.size], Or.inr rfl⟩
  | .multidiscrete ns => fun dt h => by
      have hd : Dtype.i64 = dt := h _ (by simp [leafDtypesOf, flatten_space, Space.dtypeOf])
      subst hd
      exact ⟨by simp [Space.itemsize, totalNumel, flatten_space, Space.numelOf,
        Space.shapeOf, prodShape, Dtype.size], Or.inr rfl⟩
  | .tup cs => fun dt h => by
      have h' : ∀ d ∈ (flattenSubspaces cs).map Space.dtypeOf, d = dt := by
        intro d hd
        exact h d (by simpa [leafDtypesOf, flatten_space] using hd)
      obtain ⟨hend, halign⟩ := homog_endOff cs dt 0 h' (dvd_zero _)
      have halignT : Space.alignment (.tup cs) = cs.alignment := rfl
      have htot : totalNumel (.tup cs) = totalNumelList cs := by
        simp [totalNumel, flatten_space, totalNumelList]
      constructor
      · have hsz : Space.itemsize (.tup cs)
            = alignUp (cs.endOff 0) (Space.alignment (.tup cs)) := rfl
        rw [hsz, hend, halignT, htot, Nat.zero_add]
        rcases halign with h1 | h1 <;> rw [h1]
        · exact alignUp_eq_of_dvd _ _ (by omega) (one_dvd _)
        · exact alignUp_eq_of_dvd _ _ dt.size_pos (dvd_mul_right _ _)
      · rw [halignT]; exact halign
  | .dict cs => fun dt h => by
      have h' : ∀ d ∈ (flattenSubspacesD cs).map Space.dtypeOf, d = dt := by
        intro d hd
        exact h d (by simpa [leafDtypesOf, flatten_space] using hd)
      obtain ⟨hend, halign⟩ := homog_endOffD cs dt 0 h' (dvd_zero _)
      have halignT : Space.alignment (.dict cs) = cs.alignment := rfl
      have htot : totalNumel (.dict cs) = totalNumelDict cs := by
        simp [totalNumel, flatten_space, totalNumelDict]
      constructor
      · have hsz : Space.itemsize (.dict cs)
            = alignUp (cs.endOff 0) (Space.alignment (.dict cs)) := rfl
        rw [hsz, hend, halignT, htot, Nat.zero_add]
        rcases halign with h1 | h1 <;> rw [h1]
        · exact alignUp_eq_of_dvd _ _ (by omega) (one_dvd _)
        · exact alignUp_eq_of_dvd _ _ dt.size_pos (dvd_mul_right _ _)
      · rw [halignT]; exact halign

theorem homog_endOff : ∀ (cs : SpaceList) (dt : Dtype) (rel : Nat),
    (∀ d ∈ (flattenSubspaces cs).map Space.dtypeOf, d = dt) → dt.size ∣ rel →
    cs.endOff rel = rel + dt.size * totalNumelList cs ∧
      (cs.alignment = 1 ∨ cs.alignment = dt.size)
  | .nil => fun dt rel h hdvd => by
      refine ⟨?_, Or.inl rfl⟩
      simp [SpaceList.endOff, totalNumelList, flattenSubspaces]
  | .cons c cs => fun dt rel h hdvd => by
      have hsplit : (flattenSubspaces (SpaceList.cons c cs)).map Space.dtypeOf
          = (flatten_space c).map Space.dtypeOf
            ++ (flattenSubspaces cs).map Space.dtypeOf := by
        simp [flattenSubspaces]
      have hc : ∀ d ∈ leafDtypesOf c, d = dt := fun d hd =>
        h d (by rw [hsplit]; exact List.mem_append_left _ hd)
      have hcs : ∀ d ∈ (flattenSubspaces cs).map Space.dtypeOf, d = dt := fun d hd =>
        h d (by rw [hsplit]; exact List.mem_append_right _ hd)
      obtain ⟨hci, hca⟩ := homog_layout c dt hc
      have hdvd_align : c.alignment ∣ rel := by
        rcases hca with h1 | h1 <;> rw [h1]
        · exact one_dvd _
        · exact hdvd
      have hau : alignUp rel c.alignment = rel :=
        alignUp_eq_of_dvd rel _ c.alignment_pos hdvd_align
      have hdvd2 : dt.size ∣ rel + dt.size * totalNumel c :=
        Dvd.dvd.add hdvd (dvd_mul_right _ _)
      obtain ⟨hend, halign⟩ := homog_endOff cs dt (rel + dt.size * totalNumel c) hcs hdvd2
      constructor
      · have hrw : SpaceList.endOff (.cons c cs) rel
            = cs.endOff (alignUp rel c.alignment + c.itemsize) := rfl
        rw [hrw, hau, hci, hend, totalNumelList_cons, Nat.mul_add]
        omega
      · have hs := dt.size_pos
        have hrw : SpaceList.alignment (.cons c cs) = max c.alignment cs.alignment := rfl
        rw [hrw]
        rcases hca with h1 | h1 <;> rcases halign with h2 | h2 <;> rw [h1, h2] <;> omega

theorem homog_endOffD : ∀ (cs : SpaceDict) (dt : Dtype) (rel : Nat),
    (∀ d ∈ (flattenSubspacesD cs).map Space.dtypeOf, d = dt) → dt.size ∣ rel →
    cs.endOff rel = rel + dt.size * totalNumelDict cs ∧
      (cs.alignment = 1 ∨ cs.alignment = dt.size)
  | .nil => fun dt rel h hdvd => by
      refine ⟨?_, Or.inl rfl⟩
      simp [SpaceDict.endOff, totalNumelDict, flattenSubspacesD]
  | .cons k c cs => fun dt rel h hdvd => by
      have hsplit : (flattenSubspacesD (SpaceDict.cons k c cs)).map Space.dtypeOf
          = (flatten_space c).map Space.dtypeOf
            ++ (flattenSubspacesD cs).map Space.dtypeOf := by
        simp [flattenSubspacesD]
      have hc : ∀ d ∈ leafDtypesOf c, d = dt := fun d hd =>
        h d (by rw [hsplit]; exact List.mem_append_left _ hd)
      have hcs : ∀ d ∈ (flattenSubspacesD cs).map Space.dtypeOf, d = dt := fun d hd =>
        h d (by rw [hsplit]; exact List.mem_append_right _ hd)
      obtain ⟨hci, hca⟩ := homog_layout c dt hc
      have hdvd_align : c.alignment ∣ rel := by
        rcases hca with h1 | h1 <;> rw [h1]
        · exact one_dvd _
        · exact hdvd
      have hau : alignUp rel c.alignment = rel :=
        alignUp_eq_of_dvd rel _ c.alignment_pos hdvd_align
      have hdvd2 : dt.size ∣ rel + dt.size * totalNumel c :=
        Dvd.dvd.add hdvd (dvd_mul_right _ _)
      obtain ⟨hend, halign⟩ := homog_endOffD cs dt (rel + dt.size * totalNumel c) hcs hdvd2
      constructor
      · have hrw : SpaceDict.endOff (.cons k c cs) rel
            = cs.endOff (alignUp rel c.alignment + c.itemsize) := rfl
        rw [hrw, hau, hci, hend, totalNumelDict_cons, Nat.mul_add]
        omega
      · have hs := dt.size_pos
        have hrw : SpaceDict.alignment (.cons k c cs) = max c.alignment cs.alignment := rfl
        rw [hrw]
        rcases hca with h1 | h1 <;> rcases halign with h2 | h2 <;> rw [h1, h2] <;> omega
end

/-! ## Adapter inversion lemmas -/

theorem gymStep_ok_inv (ad : GymnasiumPufferEnv) (s : GymState) (a : List Int)
    (r : GymStepResult) (o : GymStepOut)
    (h : GymnasiumPufferEnv.step ad s a r = .ok o) :
    s.inited = true ∧ s.done = false ∧
    o.state.inited = true ∧ o.state.done = r.done ∧ o.done = r.done ∧
    o.state.is_observation_checked = s.is_observation_checked ∧
    o.state.is_action_checked = true ∧
    countEv o.checked = (if s.is_action_checked then 0 else 1) ∧
    (s.is_action_checked = false →
      ∃ atn, nativizeFlat ad.env.action_space a = .ok atn ∧
        o.checked = some (.sample atn, ad.action_space)) ∧
    (s.is_action_checked = true → o.checked = none) := by
  unfold GymnasiumPufferEnv.step at h
  cases hi : s.inited with
  | false => rw [hi] at h; simp at h
  | true =>
  rw [hi] at h
  cases hd : s.done with
  | true => rw [hd] at h; simp at h
  | false =>
  rw [hd] at h
  simp only [Bool.not_true, Bool.false_eq_true, if_false, if_true] at h
  cases hn : nativizeFlat ad.env.action_space a with
  | error e =>
      rw [hn] at h
      simp only [bind, Except.bind] at h
      exact Except.noConfusion h
  | ok atn =>
  rw [hn] at h
  simp only [bind, Except.bind] at h
  cases hac : s.is_action_checked with
  | true =>
      rw [hac] at h
      rw [if_pos rfl] at h
      simp only [bind, Except.bind, pure, Except.pure] at h
      cases h
      simp [countEv, hi, hd, hac]
  | false =>
      rw [hac] at h
      rw [if_neg (by simp)] at h
      cases hcs : check_space (.sample atn) ad.action_space with
      | error e =>
          rw [hcs] at h
          simp only [bind, Except.bind] at h
          exact Except.noConfusion h
      | ok b =>
          have hb : b = true := by
            unfold check_space at hcs
            split at hcs
            · cases hcs; rfl
            · cases hcs
          subst hb
          rw [hcs] at h
          simp only [bind, Except.bind, pure, Except.pure] at h
          cases h
          refine ⟨rfl, rfl, rfl, rfl, rfl, rfl, rfl, ?_, ?_, ?_⟩
          · simp [countEv]
          · intro _; exact ⟨atn, rfl, rfl⟩
          · intro hcontra; simp at hcontra

theorem gymReset_ok_inv (ad : GymnasiumPufferEnv) (s : GymState) (ob : Sample)
    (o : GymResetOut) (h : GymnasiumPufferEnv.reset ad s ob = .ok o) :
    o.state.inited = true ∧ o.state.done = false ∧
    o.state.is_observation_checked = true ∧
    o.state.is_action_checked = s.is_action_checked ∧
    countEv o.checked = (if s.is_observation_checked then 0 else 1) ∧
    (s.is_observation_checked = false →
      o.checked = some (gymObsVal ad ob, ad.observation_space)) := by
  unfold GymnasiumPufferEnv.reset at h
  simp only [] at h
  cases hoc : s.is_observation_checked with
  | true =>
      rw [hoc] at h
      rw [if_pos rfl] at h
      cases h
      simp [countEv, hoc]
  | false =>
      rw [hoc] at h
      rw [if_neg (by simp)] at h
      cases hcs : check_space (gymObsVal ad ob) ad.observation_space with
      | error e =>
          rw [hcs] at h
          simp only [bind, Except.bind] at h
          exact Except.noConfusion h
      | ok b =>
          have hb : b = true := by
            unfold check_space at hcs
            split at hcs
            · cases hcs; rfl
            · cases hcs
          subst hb
          rw [hcs] at h
          simp only [bind, Except.bind, pure, Except.pure] at h
          cases h
          refine ⟨rfl, rfl, rfl, rfl, by simp [countEv], fun _ => rfl⟩

theorem bind_ok_inv {ε α β : Type} {x : Except ε α} {f : α → Except ε β} {b : β}
    (h : x >>= f = .ok b) : ∃ a, x = .ok a ∧ f a = .ok b := by
  cases x with
  | error e => simp only [bind, Except.bind] at h; exact Except.noConfusion h
  | ok a => exact ⟨a, rfl, by simpa only [bind, Except.bind] using h⟩

theorem check_space_ok {data : Val} {space : Space} {b : Bool}
    (h : check_space data space = .ok b) : b = true := by
  unfold check_space at h
  split at h
  · cases h; rfl
  · cases h

theorem pzResetLoop_preserves (ad : PettingZooPufferEnv) (obs : List (String × Sample)) :
    ∀ (l : List String) (s : PZState) (i : Nat) (s' : PZState),
    pzResetLoop ad obs s i l = .ok s' →
    s'.inited = s.inited ∧ s'.all_done = s.all_done ∧ s'.agents = s.agents ∧
    s'.is_observation_checked = s.is_observation_checked ∧
    s'.is_action_checked = s.is_action_checked := by
  intro l
  induction l with
  | nil =>
      intro s i s' h
      cases h
      exact ⟨rfl, rfl, rfl, rfl, rfl⟩
  | cons agent rest ih =>
      intro s i s' h
      unfold pzResetLoop at h
      split at h
      · exact Except.noConfusion h
      · obtain ⟨a1, a2, a3, a4, a5⟩ := ih _ _ _ h
        exact ⟨a1, a2, a3, a4, a5⟩

theorem pzStepObsLoop_preserves (ad : PettingZooPufferEnv) (r : PZStepResult) :
    ∀ (l : List String) (s : PZState) (i : Nat) (s' : PZState),
    pzStepObsLoop ad r s i l = .ok s' →
    s'.inited = s.inited ∧ s'.all_done = s.all_done ∧ s'.agents = s.agents ∧
    s'.is_observation_checked = s.is_observation_checked ∧
    s'.is_action_checked = s.is_action_checked := by
  intro l
  induction l with
  | nil =>
      intro s i s' h
      cases h
      exact ⟨rfl, rfl, rfl, rfl, rfl⟩
  | cons agent rest ih =>
      intro s i s' h
      unfold pzStepObsLoop at h
      split at h
      · obtain ⟨a1, a2, a3, a4, a5⟩ := ih _ _ _ h
        exact ⟨a1, a2, a3, a4, a5⟩
      · obtain ⟨rew, h1, h⟩ := bind_ok_inv h
        obtain ⟨dn, h2, h⟩ := bind_ok_inv h
        obtain ⟨tr, h3, h⟩ := bind_ok_inv h
        obtain ⟨a1, a2, a3, a4, a5⟩ := ih _ _ _ h
        exact ⟨a1, a2, a3, a4, a5⟩

theorem pzReset_ok_inv (ad : PettingZooPufferEnv) (s : PZState) (r : PZResetResult)
    (o : PZResetOut) (h : PettingZooPufferEnv.reset ad s r = .ok o) :
    o.state.inited = true ∧ o.state.all_done = false ∧ o.state.agents = r.agents ∧
    o.state.is_observation_checked = true ∧
    o.state.is_action_checked = s.is_action_checked ∧
    countEv o.checked = (if s.is_observation_checked then 0 else 1) := by
  unfold PettingZooPufferEnv.reset at h
  obtain ⟨s2, hloop, h⟩ := bind_ok_inv h
  obtain ⟨p1, p2, p3, p4, p5⟩ :=
    pzResetLoop_preserves ad r.obs ad.possible_agents _ 0 s2 hloop
  cases hoc : s2.is_observation_checked with
  | true =>
      rw [hoc] at h
      rw [if_pos rfl] at h
      cases h
      refine ⟨p1, p2, p3, hoc, p5, ?_⟩
      have hq : s.is_observation_checked = true := by rw [← p4, hoc]
      rw [hq]
      simp [countEv]
  | false =>
      rw [hoc] at h
      rw [if_neg (by simp)] at h
      obtain ⟨b, hcs, h⟩ := bind_ok_inv h
      have hb := check_space_ok hcs
      subst hb
      cases h
      refine ⟨p1, p2, p3, rfl, p5, ?_⟩
      have hq : s.is_observation_checked = false := by rw [← p4, hoc]
      rw [hq]
      simp [countEv]

theorem pzStep_ok_inv (ad : PettingZooPufferEnv) (s : PZState)
    (actions : List (String × List Int)) (r : PZStepResult) (o : PZStepOut)
    (h : PettingZooPufferEnv.step ad s actions r = .ok o) :
    s.inited = true ∧ PettingZooPufferEnv.done s = false ∧
    o.rewards = pad_agent_data r.rewards ad.possible_agents 0 ∧
    o.dones = pad_agent_data r.dones ad.possible_agents false ∧
    o.truncateds = pad_agent_data r.truncateds ad.possible_agents false ∧
    o.state.inited = true ∧ o.state.agents = r.agents ∧
    o.state.all_done = r.dones.all (fun p => p.2) ∧
    o.state.is_observation_checked = s.is_observation_checked ∧
    o.state.is_action_checked = true ∧
    countEv o.checked = (if s.is_action_checked then 0 else 1) := by
  unfold PettingZooPufferEnv.step at h
  cases hi : s.inited with
  | false => rw [hi] at h; simp at h
  | true =>
  rw [hi] at h
  cases hd : PettingZooPufferEnv.done s with
  | true => rw [hd] at h; simp at h
  | false =>
  rw [hd] at h
  simp only [Bool.not_true, Bool.false_eq_true, if_false, if_true] at h
  cases hac : s.is_action_checked with
  | true =>
      rw [hac] at h
      rw [if_pos rfl] at h
      simp only [bind, Except.bind, pure, Except.pure] at h
      obtain ⟨l, hup, h⟩ := bind_ok_inv h
      obtain ⟨s3, hloop, h⟩ := bind_ok_inv h
      obtain ⟨q1, q2, q3, q4, q5⟩ :=
        pzStepObsLoop_preserves ad r ad.possible_agents _ 0 s3 hloop
      cases h
      refine ⟨rfl, rfl, rfl, rfl, rfl, ?_, ?_, rfl, ?_, ?_, by simp [countEv]⟩
      · simp [q1, hi]
      · exact q3
      · exact q4
      · simp [q5, hac]
  | false =>
      rw [hac] at h
      rw [if_neg (by simp)] at h
      cases actions with
      | nil => simp only [bind, Except.bind] at h; exact Except.noConfusion h
      | cons a0 rest =>
      obtain ⟨b, hcs, h⟩ := bind_ok_inv h
      have hb := check_space_ok hcs
      subst hb
      simp only [bind, Except.bind, pure, Except.pure] at h
      obtain ⟨l, hup, h⟩ := bind_ok_inv h
      obtain ⟨s3, hloop, h⟩ := bind_ok_inv h
      obtain ⟨q1, q2, q3, q4, q5⟩ :=
        pzStepObsLoop_preserves ad r ad.possible_agents _ 0 s3 hloop
      cases h
      refine ⟨rfl, rfl, rfl, rfl, rfl, ?_, ?_, rfl, ?_, ?_, by simp [countEv]⟩
      · simp [q1, hi]
      · exact q3
      · exact q4
      · simp [q5]

theorem gymRun_counts (ad : GymnasiumPufferEnv) :
    ∀ (ops : List GymOp) (s s' : GymState) (no na : Nat),
    gymRun ad s ops = .ok (s', no, na) →
    no = (if s.is_observation_checked then 0
          else if ops.any (fun op => !op.isStep) then 1 else 0) ∧
    na = (if s.is_action_checked then 0
          else if ops.any GymOp.isStep then 1 else 0) := by
  intro ops
  induction ops with
  | nil =>
      intro s s' no na h
      cases h
      simp
  | cons op rest ih =>
      intro s s' no na h
      cases op with
      | reset ob =>
          unfold gymRun at h
          obtain ⟨o, hr, h⟩ := bind_ok_inv h
          obtain ⟨⟨s2, no2, na2⟩, hrun, h⟩ := bind_ok_inv h
          obtain ⟨e1, e2, e3, e4, e5, e6⟩ := gymReset_ok_inv ad s ob o hr
          obtain ⟨hno, hna⟩ := ih o.state s2 no2 na2 hrun
          cases h
          constructor
          · have hno2 : no2 = 0 := by rw [hno, e3]; simp
            rw [hno2, e5]
            by_cases hf : s.is_observation_checked
            · simp [hf]
            · simp [hf, GymOp.isStep]
          · rw [hna, e4]
            simp [GymOp.isStep]
      | step a r =>
          unfold gymRun at h
          obtain ⟨o, hstep, h⟩ := bind_ok_inv h
          obtain ⟨⟨s2, no2, na2⟩, hrun, h⟩ := bind_ok_inv h
          obtain ⟨e1, e2, e3, e4, e5, e6, e7, e8, e9, e10⟩ := gymStep_ok_inv ad s a r o hstep
          obtain ⟨hno, hna⟩ := ih o.state s2 no2 na2 hrun
          cases h
          constructor
          · rw [hno, e6]
            simp [GymOp.isStep]
          · have hna2 : na2 = 0 := by rw [hna, e7]; simp
            rw [hna2, e8]
            by_cases hf : s.is_action_checked
            · simp [hf]
            · simp [hf, GymOp.isStep]

theorem gymRun_first_not_step (ad : GymnasiumPufferEnv) (op : GymOp) (ops : List GymOp)
    (s' : GymState) (no na : Nat)
    (h : gymRun ad (GymnasiumPufferEnv.initialState ad) (op :: ops) = .ok (s', no, na)) :
    op.isStep = false := by
  cases op with
  | reset ob => rfl
  | step a r =>
      unfold gymRun at h
      obtain ⟨o, hstep, h⟩ := bind_ok_inv h
      obtain ⟨h1, _⟩ := gymStep_ok_inv ad _ a r o hstep
      exact absurd h1 (by simp [GymnasiumPufferEnv.initialState])

theorem pzRun_counts (ad : PettingZooPufferEnv) :
    ∀ (ops : List PZOp) (s s' : PZState) (no na : Nat),
    pzRun ad s ops = .ok (s', no, na) →
    no = (if s.is_observation_checked then 0
          else if ops.any (fun op => !op.isStep) then 1 else 0) ∧
    na = (if s.is_action_checked then 0
          else if ops.any PZOp.isStep then 1 else 0) := by
  intro ops
  induction ops with
  | nil =>
      intro s s' no na h
      cases h
      simp
  | cons op rest ih =>
      intro s s' no na h
      cases op with
      | reset r =>
          unfold pzRun at h
          obtain ⟨o, hr, h⟩ := bind_ok_inv h
          obtain ⟨⟨s2, no2, na2⟩, hrun, h⟩ := bind_ok_inv h
          obtain ⟨e1, e2, e3, e4, e5, e6⟩ := pzReset_ok_inv ad s r o hr
          obtain ⟨hno, hna⟩ := ih o.state s2 no2 na2 hrun
          cases h
          constructor
          · have hno2 : no2 = 0 := by rw [hno, e4]; simp
            rw [hno2, e6]
            by_cases hf : s.is_observation_checked
            · simp [hf]
            · simp [hf, PZOp.isStep]
          · rw [hna, e5]
            simp [PZOp.isStep]
      | step a r =>
          unfold pzRun at h
          obtain ⟨o, hstep, h⟩ := bind_ok_inv h
          obtain ⟨⟨s2, no2, na2⟩, hrun, h⟩ := bind_ok_inv h
          obtain ⟨e1, e2, e3, e4, e5, e6, e7, e8, e9, e10, e11⟩ :=
            pzStep_ok_inv ad s a r o hstep
          obtain ⟨hno, hna⟩ := ih o.state s2 no2 na2 hrun
          cases h
          constructor
          · rw [hno, e9]
            simp [PZOp.isStep]
          · have hna2 : na2 = 0 := by rw [hna, e10]; simp
            rw [hna2, e11]
            by_cases hf : s.is_action_checked
            · simp [hf]
            · simp [hf, PZOp.isStep]

theorem pzRun_first_not_step (ad : PettingZooPufferEnv) (agents0 : List String)
    (op : PZOp) (ops : List PZOp) (s' : PZState) (no na : Nat)
    (h : pzRun ad (PettingZooPufferEnv.initialState ad agents0) (op :: ops)
      = .ok (s', no, na)) : op.isStep = false := by
  cases op with
  | reset r => rfl
  | step a r =>
      unfold pzRun at h
      obtain ⟨o, hstep, h⟩ := bind_ok_inv h
      obtain ⟨h1, _⟩ := pzStep_ok_inv ad _ a r o hstep
      exact absurd h1 (by simp [PettingZooPufferEnv.initialState])

theorem pad_agent_data_keys {α : Type} (data : List (String × α)) (agents : List String)
    (p : α) : (pad_agent_data data agents p).map Prod.fst = agents := by
  simp only [pad_agent_data, List.map_map]
  have : (Prod.fst ∘ fun agent => (agent, (List.lookup agent data).getD p))
      = fun a : String => a := by
    funext a
    rfl
  rw [this, List.map_id']

theorem pad_agent_data_lookup {α : Type} (data : List (String × α)) (p : α) :
    ∀ (agents : List String) (ag : String), ag ∈ agents →
    (pad_agent_data data agents p).lookup ag = some ((data.lookup ag).getD p) := by
  intro agents
  induction agents with
  | nil => intro ag h; simp at h
  | cons a rest ih =>
      intro ag h
      simp only [pad_agent_data, List.map_cons, List.lookup]
      cases hb : (ag == a) with
      | true =>
          have heq : ag = a := by simpa using hb
          subst heq
          rfl
      | false =>
          have hne : ¬ (ag = a) := by simpa using hb
          have hmem : ag ∈ rest := by
            cases h with
            | head => exact absurd rfl hne
            | tail _ hm => exact hm
          exact ih ag hmem

/-- Claim C1, counterexample: the round trip fails as stated.  The sample
`((3, 4),)` conforms to the schema `Tuple(Box(int8, shape=(2,)))`, but
decoding its encoding raises `ValueError` (`.item()` on a 2-element leaf)
instead of returning the sample. -/

theorem C1_roundtrip_counterexample :
    conforms c1SpaceFix c1SampleFix = true ∧
    nativize (emulate c1SpaceFix c1SampleFix) c1SpaceFix = .error .valueError := by
  exact ⟨by decide, by decide⟩

/-- Claim C1, amended: for every sample conforming to a schema composed of
Dict/Tuple/Leaf nodes **whose leaves are all scalar-shaped (shape `()`)**,
decoding the encoded flat buffer reconstructs the sample exactly —
same nesting, same positions and keys, same scalar values.  (For a leaf
with more than one element, decoding raises `ValueError`; for a
one-element leaf of shape `(1,)`, decoding returns the scalar rather than
the length-1 array.) -/

theorem C1_roundtrip (sp : Space) (s : Sample) (hs : allScalarLeaves sp = true)
    (hc : conforms sp s = true) : nativize (emulate sp s) sp = .ok s :=
  nativize_emulate sp s hc hs

theorem C1_roundtrip_witness :
    allScalarLeaves c1WitSpace = true ∧ conforms c1WitSpace c1WitSample = true ∧
    nativize (emulate c1WitSpace c1WitSample) c1WitSpace = .ok c1WitSample :=
  ⟨by decide, by decide, C1_roundtrip c1WitSpace c1WitSample (by decide) (by decide)⟩

/-- Claim C3: the code is wrong — on a non-Leaf action schema containing a
leaf without a finite cardinality (a continuous `Box`), building the flat
action view fails by raising `AttributeError` (reading the missing `.n`
attribute), not the `UnsupportedSchemaError` the specification requires
(§7, §9).  It does not silently coerce. -/

theorem C3_action_space_attribute_error :
    emulate_action_space (.tup (.cons (.box .i8 [] 0 1) .nil)) = .error .attributeError ∧
    emulate_action_space (.tup (.cons (.box .i8 [] 0 1) .nil))
      ≠ .error .unsupportedSchemaError := by
  exact ⟨by decide, by decide⟩

/-- Claim C4: for both adapters, `step` before any `reset` and `step` in a
terminated episode without an intervening `reset` raise `APIUsageError`
(the exception is raised before any state mutation, so the adapter state
is unchanged: the embedding returns the error without a successor state). -/

theorem C4_step_guards :
    (∀ (ad : GymnasiumPufferEnv) (s : GymState) (a : List Int) (r : GymStepResult),
        s.inited = false → GymnasiumPufferEnv.step ad s a r = .error .apiUsageError) ∧
    (∀ (ad : GymnasiumPufferEnv) (s : GymState) (a : List Int) (r : GymStepResult),
        s.inited = true → s.done = true →
        GymnasiumPufferEnv.step ad s a r = .error .apiUsageError) ∧
    (∀ (ad : GymnasiumPufferEnv) (s : GymState) (a : List Int) (r : GymStepResult)
        (o : GymStepOut) (a' : List Int) (r' : GymStepResult),
        GymnasiumPufferEnv.step ad s a r = .ok o → o.done = true →
        GymnasiumPufferEnv.step ad o.state a' r' = .error .apiUsageError) ∧
    (∀ (ad : PettingZooPufferEnv) (s : PZState) (acts : List (String × List Int))
        (r : PZStepResult), s.inited = false →
        PettingZooPufferEnv.step ad s acts r = .error .apiUsageError) ∧
    (∀ (ad : PettingZooPufferEnv) (s : PZState) (acts : List (String × List Int))
        (r : PZStepResult), s.inited = true → PettingZooPufferEnv.done s = true →
        PettingZooPufferEnv.step ad s acts r = .error .apiUsageError) ∧
    (∀ (ad : PettingZooPufferEnv) (s : PZState) (acts : List (String × List Int))
        (r : PZStepResult) (o : PZStepOut) (acts' : List (String × List Int))
        (r' : PZStepResult),
        PettingZooPufferEnv.step ad s acts r = .ok o →
        PettingZooPufferEnv.done o.state = true →
        PettingZooPufferEnv.step ad o.state acts' r' = .error .apiUsageError) := by
  refine ⟨?_, ?_, ?_, ?_, ?_, ?_⟩
  · intro ad s a r h
    simp [GymnasiumPufferEnv.step, h]
  · intro ad s a r h1 h2
    simp [GymnasiumPufferEnv.step, h1, h2]
  · intro ad s a r o a' r' hok hdone
    obtain ⟨e1, e2, e3, e4, e5, _⟩ := gymStep_ok_inv ad s a r o hok
    have hsd : o.state.done = true := by rw [e4, ← e5, hdone]
    simp [GymnasiumPufferEnv.step, e3, hsd]
  · intro ad s acts r h
    simp [PettingZooPufferEnv.step, h]
  · intro ad s acts r h1 h2
    simp [PettingZooPufferEnv.step, h1, h2]
  · intro ad s acts r o acts' r' hok hdone
    obtain ⟨e1, e2, e3, e4, e5, e6, _⟩ := pzStep_ok_inv ad s acts r o hok
    simp [PettingZooPufferEnv.step, e6, hdone]

theorem C4_step_guards_witness :
    (GymnasiumPufferEnv.initialState gymAdFix).inited = false ∧
    GymnasiumPufferEnv.step gymAdFix (GymnasiumPufferEnv.initialState gymAdFix)
      [1, 0] ⟨.leaf [] [6], 1, false, false⟩ = .error .apiUsageError :=
  ⟨by decide, C4_step_guards.1 gymAdFix _ [1, 0] ⟨.leaf [] [6], 1, false, false⟩ (by decide)⟩

/-- Claim C5: after every successful multi-agent step, the returned
reward/done/truncated mappings are keyed by the full fixed
`possible_agents` population, and every possible agent omitted from the
wrapped environment's result carries the declared default (reward 0, done
false, truncated false). -/

theorem C5_padding : ∀ (ad : PettingZooPufferEnv) (s : PZState)
    (acts : List (String × List Int)) (r : PZStepResult) (o : PZStepOut),
    PettingZooPufferEnv.step ad s acts r = .ok o →
    (o.rewards.map Prod.fst = ad.possible_agents ∧
     o.dones.map Prod.fst = ad.possible_agents ∧
     o.truncateds.map Prod.fst = ad.possible_agents) ∧
    ∀ ag ∈ ad.possible_agents,
      (r.rewards.lookup ag = none → o.rewards.lookup ag = some 0) ∧
      (r.dones.lookup ag = none → o.dones.lookup ag = some false) ∧
      (r.truncateds.lookup ag = none → o.truncateds.lookup ag = some false) := by
  intro ad s acts r o hok
  obtain ⟨_, _, e3, e4, e5, _⟩ := pzStep_ok_inv ad s acts r o hok
  rw [e3, e4, e5]
  refine ⟨⟨pad_agent_data_keys _ _ _, pad_agent_data_keys _ _ _,
    pad_agent_data_keys _ _ _⟩, ?_⟩
  intro ag hag
  refine ⟨?_, ?_, ?_⟩
  · intro hnone
    rw [pad_agent_data_lookup _ _ _ ag hag, hnone]
    rfl
  · intro hnone
    rw [pad_agent_data_lookup _ _ _ ag hag, hnone]
    rfl
  · intro hnone
    rw [pad_agent_data_lookup _ _ _ ag hag, hnone]
    rfl

/-- Claim C6: the code is wrong — on `reset`, a possible agent absent from
the wrapped environment's reset result hits `self.observation[i] = 0`,
which raises `AttributeError` (the class has no attribute `observation`;
the sibling branch in `step` writes `self.obs[i] = 0`), instead of
zero-filling the slot and leaving the mask false as the specification
says.  Here agent "b" is absent from the reset result. -/

theorem C6_reset_absent_agent_attribute_error :
    PettingZooPufferEnv.reset pzAdFix (PettingZooPufferEnv.initialState pzAdFix ["a", "b"])
      ⟨[("a", .leaf [] [5])], ["a", "b"]⟩ = .error .attributeError := by decide

/-- Claim C8, counterexample: the adapter's `done` flag is not "no active
agents remain or all active agents are individually done".  After a step
whose response leaves agent "a" active and individually done while the
inactive agent "b" is reported not done, the claim's formula is true but
the adapter's `done` flag (`len(agents) == 0 or all(dones.values())`) is
false. -/

theorem C8_done_counterexample :
    (PettingZooPufferEnv.step pzAdFix pzStateFix [("a", [1])] pzStepResDoneFix).map
        (fun o => (PettingZooPufferEnv.done o.state, o.state.agents))
      = .ok (false, ["a"]) ∧
    pzStepResDoneFix.dones.lookup "a" = some true := by
  exact ⟨by decide, by decide⟩

/-- Claim C8, amended: after every reset the `done` flag is true iff no
active agents remain; after every successful step it is true iff no active
agents remain **or every per-agent done flag in the wrapped environment's
reported dones mapping is true** (`all(dones.values())` over the raw,
un-padded mapping). -/

theorem C8_done_formula :
    (∀ (ad : PettingZooPufferEnv) (s : PZState) (r : PZResetResult) (o : PZResetOut),
        PettingZooPufferEnv.reset ad s r = .ok o →
        PettingZooPufferEnv.done o.state = r.agents.isEmpty) ∧
    (∀ (ad : PettingZooPufferEnv) (s : PZState) (acts : List (String × List Int))
        (r : PZStepResult) (o : PZStepOut),
        PettingZooPufferEnv.step ad s acts r = .ok o →
        PettingZooPufferEnv.done o.state
          = (r.agents.isEmpty || r.dones.all (fun p => p.2))) := by
  constructor
  · intro ad s r o hok
    obtain ⟨e1, e2, e3, _⟩ := pzReset_ok_inv ad s r o hok
    simp [PettingZooPufferEnv.done, e2, e3]
  · intro ad s acts r o hok
    obtain ⟨e1, e2, e3, e4, e5, e6, e7, e8, _⟩ := pzStep_ok_inv ad s acts r o hok
    simp [PettingZooPufferEnv.done, e7, e8]

/-- Claim C9: the three-stage seeding fallback of `_seed_and_reset` for a
non-None seed: (1) a seeded reset call; on failure (2) an explicit seed
call followed by an unseeded reset; on failure there (3) a plain unseeded
reset with a non-fatal warning — and the reset never fails because the
wrapped environment lacks seeding support (whenever the plain reset
succeeds, the call succeeds). -/

theorem C9_seed_and_reset_fallback : ∀ (env : SeedEnv) (sd : Nat),
    (∀ ob, env.resetSeeded sd = .ok ob →
        _seed_and_reset env (some sd) = .ok (ob, false)) ∧
    (∀ e ob, env.resetSeeded sd = .error e → env.seed sd = .ok () →
        env.resetPlain = .ok ob → _seed_and_reset env (some sd) = .ok (ob, false)) ∧
    (∀ e e', env.resetSeeded sd = .error e → env.seed sd = .error e' →
        _seed_and_reset env (some sd) = env.resetPlain.map (fun ob => (ob, true))) ∧
    (∀ e e'', env.resetSeeded sd = .error e → env.seed sd = .ok () →
        env.resetPlain = .error e'' → _seed_and_reset env (some sd) = .error e'') ∧
    (∀ ob, env.resetPlain = .ok ob →
        ∃ ob' w, _seed_and_reset env (some sd) = .ok (ob', w)) := by
  intro env sd
  refine ⟨?_, ?_, ?_, ?_, ?_⟩
  · intro ob h
    simp [_seed_and_reset, h]
  · intro e ob h1 h2 h3
    simp [_seed_and_reset, h1, h2, h3, bind, Except.bind]
  · intro e e' h1 h2
    cases hp : env.resetPlain with
    | ok ob => simp [_seed_and_reset, h1, h2, hp, bind, Except.bind, Except.map]
    | error u => simp [_seed_and_reset, h1, h2, hp, bind, Except.bind, Except.map]
  · intro e e'' h1 h2 h3
    simp [_seed_and_reset, h1, h2, h3, bind, Except.bind]
  · intro ob hp
    cases hs : env.resetSeeded sd with
    | ok ob' => exact ⟨ob', false, by simp [_seed_and_reset, hs]⟩
    | error e =>
        cases hsd : env.seed sd with
        | ok u =>
            cases u
            exact ⟨ob, false, by simp [_seed_and_reset, hs, hsd, hp, bind, Except.bind]⟩
        | error e' =>
            exact ⟨ob, true, by simp [_seed_and_reset, hs, hsd, hp, bind, Except.bind]⟩

theorem C9_seed_and_reset_witness :
    seedEnvFix.resetSeeded 0 = .error () ∧ seedEnvFix.seed 0 = .error () ∧
    seedEnvFix.resetPlain = .ok (.leaf [] [5]) ∧
    _seed_and_reset seedEnvFix (some 0) = .ok (.leaf [] [5], true) :=
  ⟨rfl, rfl, rfl,
    ((C9_seed_and_reset_fallback seedEnvFix 0).2.2.1 () () rfl rfl).trans rfl⟩

/-- Claim C2, counterexample: a non-Leaf schema with no leaves (an empty
Tuple) makes `emulate_observation_space` raise `IndexError` at
`dtypes[0]` instead of returning any flat view, so the claim fails as
stated for that input. -/

theorem C2_empty_schema_counterexample :
    Space.isLeaf (.tup .nil) = false ∧
    emulate_observation_space (.tup .nil) = .error .indexError :=
  ⟨rfl, by decide⟩

/-- Claim C2, amended: for every non-Leaf schema **with at least one
leaf**, if all leaf scalar types equal the first then the derived view is
one-dimensional of that scalar type with that type's natural bounds and
length equal to the total leaf element count; otherwise it is a view of
the one-byte fallback type with bounds `[0, 255]` and length equal to the
total packed byte size; in both cases the view length times the element
byte size is exactly the packed layout's byte size. -/

theorem C2_observation_view (sp : Space) (d0 : Dtype) (ds : List Dtype)
    (hleaf : sp.isLeaf = false) (hdt : leafDtypesOf sp = d0 :: ds) :
    ((leafDtypesOf sp).all (· = d0) = true →
        emulate_observation_space sp
          = .ok (.box d0 [totalNumel sp]
              (_get_dtype_bounds d0).1 (_get_dtype_bounds d0).2) ∧
        totalNumel sp * d0.size = sp.itemsize) ∧
    ((leafDtypesOf sp).all (· = d0) = false →
        emulate_observation_space sp = .ok (.box .u8 [sp.itemsize] 0 255) ∧
        sp.itemsize * Dtype.size .u8 = sp.itemsize) := by
  have hbox : sp.isBox = false := by
    cases sp <;> simp_all [Space.isLeaf, Space.isBox]
  have hunfold : emulate_observation_space sp
      = .ok (.box (if (d0 :: ds).count d0 = (d0 :: ds).length then d0 else Dtype.u8)
          [sp.itemsize /
            (if (d0 :: ds).count d0 = (d0 :: ds).length then d0 else Dtype.u8).size]
          (_get_dtype_bounds
            (if (d0 :: ds).count d0 = (d0 :: ds).length then d0 else Dtype.u8)).1
          (_get_dtype_bounds
            (if (d0 :: ds).count d0 = (d0 :: ds).length then d0 else Dtype.u8)).2) := by
    unfold emulate_observation_space
    rw [hbox]
    rw [if_neg (by simp)]
    dsimp only
    rw [show List.map Space.dtypeOf (flatten_space sp) = d0 :: ds from hdt]
  constructor
  · intro hall
    have hall' : ∀ d ∈ leafDtypesOf sp, d = d0 := by
      intro d hd
      simpa using List.all_eq_true.mp hall d hd
    obtain ⟨hsz, _⟩ := homog_layout sp d0 hall'
    have hcount : (d0 :: ds).count d0 = (d0 :: ds).length := by
      apply List.count_eq_length.mpr
      intro b hb
      exact (hall' b (by rw [hdt]; exact hb)).symm
    have hdiv : sp.itemsize / d0.size = totalNumel sp := by
      rw [hsz]
      exact Nat.mul_div_cancel_left _ d0.size_pos
    rw [hunfold, if_pos hcount]
    exact ⟨by rw [hdiv], by rw [hsz, Nat.mul_comm]⟩
  · intro hne
    have hcount : ¬ ((d0 :: ds).count d0 = (d0 :: ds).length) := by
      intro hc
      have hforall := List.count_eq_length.mp hc
      have hall : (leafDtypesOf sp).all (· = d0) = true := by
        apply List.all_eq_true.mpr
        intro d hd
        rw [hdt] at hd
        simpa using (hforall d hd).symm
      rw [hall] at hne
      exact Bool.noConfusion hne
    rw [hunfold, if_neg hcount]
    constructor
    · have h1 : sp.itemsize / Dtype.size .u8 = sp.itemsize := Nat.div_one _
      rw [h1]
      rfl
    · exact Nat.mul_one _

theorem C2_observation_view_witness :
    Space.isLeaf c2SpaceFix = false ∧
    (leafDtypesOf c2SpaceFix).all (· = Dtype.i16) = true ∧
    emulate_observation_space c2SpaceFix = .ok (.box .i16 [3] (-32768) 32767) ∧
    totalNumel c2SpaceFix * Dtype.size .i16 = c2SpaceFix.itemsize :=
  ⟨by decide, by decide,
   (((C2_observation_view c2SpaceFix .i16 [.i16] (by decide) (by decide)).1
      (by decide)).1).trans (by decide),
   ((C2_observation_view c2SpaceFix .i16 [.i16] (by decide) (by decide)).1
      (by decide)).2⟩

/-- Claim C7: on a freshly constructed adapter instance of either class,
across any successful sequence of reset/step calls the observation
containment check fires exactly once (on the first observation produced,
i.e. whenever at least one call occurs) and the action containment check
fires exactly once (on the first action consumed, i.e. whenever at least
one step occurs), and never again. -/

theorem C7_one_shot_validation :
    (∀ (ad : GymnasiumPufferEnv) (ops : List GymOp) (s' : GymState) (no na : Nat),
        gymRun ad (GymnasiumPufferEnv.initialState ad) ops = .ok (s', no, na) →
        no = (if ops.isEmpty then 0 else 1) ∧
        na = (if ops.any GymOp.isStep then 1 else 0)) ∧
    (∀ (ad : PettingZooPufferEnv) (agents0 : List String) (ops : List PZOp)
        (s' : PZState) (no na : Nat),
        pzRun ad (PettingZooPufferEnv.initialState ad agents0) ops = .ok (s', no, na) →
        no = (if ops.isEmpty then 0 else 1) ∧
        na = (if ops.any PZOp.isStep then 1 else 0)) := by
  constructor
  · intro ad ops s' no na h
    obtain ⟨hno, hna⟩ := gymRun_counts ad ops _ s' no na h
    simp only [GymnasiumPufferEnv.initialState, Bool.false_eq_true, if_false] at hno hna
    constructor
    · cases ops with
      | nil => simpa using hno
      | cons op rest =>
          have hfirst := gymRun_first_not_step ad op rest s' no na h
          have hany : ((op :: rest).any fun op => !op.isStep) = true := by
            simp [List.any_cons, hfirst]
          rw [hany] at hno
          simpa using hno
    · exact hna
  · intro ad agents0 ops s' no na h
    obtain ⟨hno, hna⟩ := pzRun_counts ad ops _ s' no na h
    simp only [PettingZooPufferEnv.initialState, Bool.false_eq_true, if_false] at hno hna
    constructor
    · cases ops with
      | nil => simpa using hno
      | cons op rest =>
          have hfirst := pzRun_first_not_step ad agents0 op rest s' no na h
          have hany : ((op :: rest).any fun op => !op.isStep) = true := by
            simp [List.any_cons, hfirst]
          rw [hany] at hno
          simpa using hno
    · exact hna

theorem C7_one_shot_validation_witness :
    (gymRun gymAdFix (GymnasiumPufferEnv.initialState gymAdFix) gymOpsFix
        = .ok (gymRunEndFix, 1, 1) ∧
      (1 = if gymOpsFix.isEmpty then 0 else 1) ∧
      (1 = if gymOpsFix.any GymOp.isStep then 1 else 0)) ∧
    (pzRun pzAdFix (PettingZooPufferEnv.initialState pzAdFix ["a", "b"]) pzOpsFix
        = .ok (pzRunEndFix, 1, 1) ∧
      (1 = if pzOpsFix.isEmpty then 0 else 1) ∧
      (1 = if pzOpsFix.any PZOp.isStep then 1 else 0)) :=
  ⟨⟨by decide,
    (C7_one_shot_validation.1 gymAdFix gymOpsFix gymRunEndFix 1 1 (by decide)).1,
    (C7_one_shot_validation.1 gymAdFix gymOpsFix gymRunEndFix 1 1 (by decide)).2⟩,
   ⟨by decide,
    (C7_one_shot_validation.2 pzAdFix ["a", "b"] pzOpsFix pzRunEndFix 1 1 (by decide)).1,
    (C7_one_shot_validation.2 pzAdFix ["a", "b"] pzOpsFix pzRunEndFix 1 1 (by decide)).2⟩⟩

/-- Claim C10: in the single-agent adapter's step, the incoming flat
action is nativized (against the wrapped environment's original action
space and packed action dtype) before the one-time containment check, and
that check compares the nativized nested action against the adapter's
emulated flat action space — not the wrapped environment's original
action space — on every first step, whether or not the action schema
required emulation (the nativization is unconditional). -/

theorem C10_first_step_check : ∀ (env : GymEnv) (ad : GymnasiumPufferEnv)
    (s : GymState) (a : List Int) (r : GymStepResult) (atn : Sample),
    GymnasiumPufferEnv.make env = .ok ad →
    s.inited = true → s.done = false → s.is_action_checked = false →
    nativizeFlat env.action_space a = .ok atn →
    (ad.env = env ∧ emulate_action_space env.action_space = .ok ad.action_space) ∧
    (∀ o, GymnasiumPufferEnv.step ad s a r = .ok o →
        o.checked = some (.sample atn, ad.action_space)) ∧
    (spaceContains ad.action_space (.sample atn) = false →
        GymnasiumPufferEnv.step ad s a r = .error .apiUsageError) := by
  intro env ad s a r atn hmk hi hd hac hn
  unfold GymnasiumPufferEnv.make at hmk
  obtain ⟨obsSp, hobs, hmk⟩ := bind_ok_inv hmk
  obtain ⟨atnSp, hatn, hmk⟩ := bind_ok_inv hmk
  cases hmk
  refine ⟨⟨rfl, hatn⟩, ?_, ?_⟩
  · intro o hok
    obtain ⟨_, _, _, _, _, _, _, _, hev, _⟩ := gymStep_ok_inv _ s a r o hok
    obtain ⟨atn', hn', hev'⟩ := hev hac
    rw [hn] at hn'
    cases hn'
    exact hev'
  · intro hfail
    simp [GymnasiumPufferEnv.step, hi, hd, hn, hac, check_space, hfail,
      bind, Except.bind]

theorem C5_padding_witness :
    PettingZooPufferEnv.step pzAdFix pzStateFix [("a", [1]), ("b", [2])] pzStepResFix
      = .ok pzStepOutFix ∧
    pzStepResFix.rewards.lookup "b" = none ∧
    pzStepOutFix.rewards.lookup "b" = some 0 ∧
    pzStepOutFix.dones.lookup "b" = some false ∧
    pzStepOutFix.truncateds.lookup "b" = some false ∧
    pzStepOutFix.rewards.map Prod.fst = pzAdFix.possible_agents :=
  ⟨by decide, by decide,
   ((C5_padding pzAdFix pzStateFix [("a", [1]), ("b", [2])] pzStepResFix pzStepOutFix
      (by decide)).2 "b" (by decide)).1 (by decide),
   ((C5_padding pzAdFix pzStateFix [("a", [1]), ("b", [2])] pzStepResFix pzStepOutFix
      (by decide)).2 "b" (by decide)).2.1 (by decide),
   ((C5_padding pzAdFix pzStateFix [("a", [1]), ("b", [2])] pzStepResFix pzStepOutFix
      (by decide)).2 "b" (by decide)).2.2 (by decide),
   (C5_padding pzAdFix pzStateFix [("a", [1]), ("b", [2])] pzStepResFix pzStepOutFix
      (by decide)).1.1⟩

theorem C8_done_formula_witness :
    PettingZooPufferEnv.reset pzAdFix (PettingZooPufferEnv.initialState pzAdFix ["a", "b"])
      ⟨[("a", .leaf [] [5]), ("b", .leaf [] [6])], ["a", "b"]⟩ = .ok pzResetOutFix ∧
    PettingZooPufferEnv.done pzResetOutFix.state = (["a", "b"] : List String).isEmpty :=
  ⟨by decide,
   C8_done_formula.1 pzAdFix (PettingZooPufferEnv.initialState pzAdFix ["a", "b"])
     ⟨[("a", .leaf [] [5]), ("b", .leaf [] [6])], ["a", "b"]⟩ pzResetOutFix (by decide)⟩

theorem C10_first_step_check_witness :
    GymnasiumPufferEnv.make gymEnvFix = .ok gymAdFix ∧
    gymStState.inited = true ∧ gymStState.done = false ∧
    gymStState.is_action_checked = false ∧
    nativizeFlat gymEnvFix.action_space [1, 0] = .ok gymAtnFix ∧
    GymnasiumPufferEnv.step gymAdFix gymStState [1, 0] ⟨.leaf [] [6], 1, false, false⟩
      = .ok { state := { inited := true, done := false, is_observation_checked := true,
                         is_action_checked := true, obs := .sample (.leaf [] [6]) },
              obs := .sample (.leaf [] [6]), reward := 1, done := false,
              truncated := false,
              checked := some (.sample gymAtnFix, .multidiscrete [3, 2]) } ∧
    some ((Val.sample gymAtnFix), gymAdFix.action_space)
      = some ((Val.sample gymAtnFix), .multidiscrete [3, 2]) :=
  ⟨by decide, by decide, by decide, by decide, by decide, by decide,
   ((C10_first_step_check gymEnvFix gymAdFix gymStState [1, 0]
      ⟨.leaf [] [6], 1, false, false⟩ gymAtnFix (by decide) (by decide) (by decide)
      (by decide) (by decide)).2.1
      { state := { inited := true, done := false, is_observation_checked := true,
                   is_action_checked := true, obs := .sample (.leaf [] [6]) },
        obs := .sample (.leaf [] [6]), reward := 1, done := false,
        truncated := false,
        checked := some (.sample gymAtnFix, .multidiscrete [3, 2]) }
      (by decide)) ▸ rfl⟩
